import Mathlib

/-!
Verification of the configuration signing and verification subsystem of
gsa_admin.py (class gsaConfig).  The Python code is shallowly embedded:

* the document's raw byte content (self.configXMLString) is a List Char;
* xml.dom.minidom is modelled by an XML forest type XForest, an executable
  serializer matching minidom's toxml output for the element/text fragment
  of XML the tool manipulates (no attributes, comments or CDATA sections),
  and an executable parser for that same fragment;
* hmac.new(password, message, hashlib.sha1).hexdigest() is modelled by a
  full executable implementation of HMAC-SHA1 over byte lists (Nat values
  below 256), with UTF-8 encoding at the string-to-byte boundary;
* Python exceptions and sys.exit calls are modelled by an error type
  GsaError: parseError stands for the xml.parsers.expat parse failure,
  structureError for the AttributeError raised when a required element is
  looked up with getElementsByTagName(...).item(0) and the resulting None
  is dereferenced, and alreadyExistsError for the exists-check sys.exit(1)
  in writeFile.
-/

set_option maxRecDepth 100000

/-- Characters of a string literal, the working representation of raw text. -/
def cs (s : String) : List Char := s.data

/-- Prefix test on character lists. -/
def isPreOf : List Char → List Char → Bool
  | [], _ => true
  | _ :: _, [] => false
  | a :: as, b :: bs => a = b && isPreOf as bs

/-- Substring occurrence test, modelling the Python truth test
str.count(pat) used by verifySignature (nonzero count iff occurrence). -/
def containsSub (hay pat : List Char) : Bool :=
  match hay with
  | [] => isPreOf pat []
  | _ :: t => isPreOf pat hay || containsSub t pat

/-- Fueled scanner of replaceAllSub; every step consumes at least one
character, so fuel equal to the input length completes the scan. -/
def replaceAllAux (pat rep : List Char) : Nat → List Char → List Char
  | 0, s => s
  | f + 1, s =>
    match s with
    | [] => []
    | c :: rest =>
      if pat ≠ [] ∧ isPreOf pat (c :: rest) then
        rep ++ replaceAllAux pat rep f ((c :: rest).drop pat.length)
      else
        c :: replaceAllAux pat rep f rest

/-- Replacement of every leftmost non-overlapping occurrence, modelling
re.sub with a literal (metacharacter-free) pattern. -/
def replaceAllSub (s pat rep : List Char) : List Char :=
  replaceAllAux pat rep s.length s

/-- Replacement of only the first occurrence, modelling
str.replace(pat, rep, 1) used by writeFile. -/
def replaceFirstSub (s pat rep : List Char) : List Char :=
  match s with
  | [] => []
  | c :: rest =>
    if pat ≠ [] ∧ isPreOf pat (c :: rest) then
      rep ++ (c :: rest).drop pat.length
    else
      c :: replaceFirstSub rest pat rep

/-- Whitespace set of Python 2 str.strip(): space, tab, newline, carriage
return, vertical tab, form feed. -/
def isPyWs (c : Char) : Bool :=
  c = ' ' || c = '\t' || c = '\n' || c = '\r' || c = '\x0b' || c = '\x0c'

/-- Strip of leading and trailing Python whitespace, modelling str.strip(). -/
def pyStrip (l : List Char) : List Char :=
  ((l.dropWhile isPyWs).reverse.dropWhile isPyWs).reverse

/-- UTF-8 encoding of a single character (code point to byte list). -/
def utf8Char (c : Char) : List Nat :=
  let n := c.toNat
  if n < 128 then [n]
  else if n < 2048 then [192 + n / 64, 128 + n % 64]
  else if n < 65536 then [224 + n / 4096, 128 + n / 64 % 64, 128 + n % 64]
  else [240 + n / 262144, 128 + n / 4096 % 64, 128 + n / 64 % 64, 128 + n % 64]

/-- UTF-8 bytes of a character list, the str/bytes boundary of Python 2. -/
def strBytes (l : List Char) : List Nat := (l.map utf8Char).flatten

/-- Truncation to a 32-bit word. -/
def w32 (n : Nat) : Nat := n % 4294967296

/-- Rotate left of a 32-bit word (input below 2^32). -/
def rotl (b n : Nat) : Nat := (n * 2 ^ b) % 4294967296 + n / 2 ^ (32 - b)

/-- Big-endian 4-byte encoding of a 32-bit word. -/
def be32 (n : Nat) : List Nat :=
  [n / 16777216 % 256, n / 65536 % 256, n / 256 % 256, n % 256]

/-- Big-endian 8-byte encoding of a 64-bit length. -/
def be64 (n : Nat) : List Nat :=
  [n / 72057594037927936 % 256, n / 281474976710656 % 256,
   n / 1099511627776 % 256, n / 4294967296 % 256,
   n / 16777216 % 256, n / 65536 % 256, n / 256 % 256, n % 256]

/-- SHA-1 padding: 0x80, zeros to 56 mod 64, 8-byte bit length. -/
def shaPad (msg : List Nat) : List Nat :=
  msg ++ [128] ++ List.replicate ((119 - msg.length % 64) % 64) 0
      ++ be64 (8 * msg.length)

/-- Fueled 64-byte chunker; every step consumes at least one byte. -/
def chunks64Aux : Nat → List Nat → List (List Nat)
  | 0, _ => []
  | f + 1, l =>
    match l with
    | [] => []
    | c :: rest => ((c :: rest).take 64) :: chunks64Aux f ((c :: rest).drop 64)

/-- Split a byte list into 64-byte chunks. -/
def chunks64 (l : List Nat) : List (List Nat) := chunks64Aux l.length l

/-- Big-endian 32-bit words of a chunk. -/
def wordsBE : List Nat → List Nat
  | b0 :: b1 :: b2 :: b3 :: r =>
      (((b0 * 256 + b1) * 256 + b2) * 256 + b3) :: wordsBE r
  | _ => []

/-- SHA-1 round function selection. -/
def sha1F (i b c d : Nat) : Nat :=
  if i < 20 then Nat.lor (Nat.land b c) (Nat.land (4294967295 - b) d)
  else if i < 40 then Nat.xor (Nat.xor b c) d
  else if i < 60 then
    Nat.lor (Nat.lor (Nat.land b c) (Nat.land b d)) (Nat.land c d)
  else Nat.xor (Nat.xor b c) d

/-- SHA-1 round constants. -/
def sha1K (i : Nat) : Nat :=
  if i < 20 then 1518500249
  else if i < 40 then 1859775393
  else if i < 60 then 2400959708
  else 3395469782

/-- One SHA-1 round on the five-word state: i is the round index, w the
schedule word. -/
def sha1Round (i w : Nat) (st : Nat × Nat × Nat × Nat × Nat) :
    Nat × Nat × Nat × Nat × Nat :=
  let t := w32 (rotl 5 st.1 + sha1F i st.2.1 st.2.2.1 st.2.2.2.1
                + st.2.2.2.2 + sha1K i + w)
  (t, st.1, rotl 30 st.2.1, st.2.2.1, st.2.2.2.1)

/-- Word of the schedule window: the window keeps the most recent sixteen
32-bit schedule words packed little-position-first in one number, the
newest word in the lowest 32 bits; winGet win k is the word generated k+1
steps ago. -/
def winGet (win k : Nat) : Nat := win / 4294967296 ^ k % 4294967296

/-- Push a new word onto the schedule window, keeping sixteen words. -/
def winPush (w win : Nat) : Nat :=
  (w + win * 4294967296) % 13407807929942597099574024998205846127479365820592393377723561443721764030073546976801874298166903427690031858186486050853753882811946569946433649006084096

/-- Rounds 0 to 15 of a SHA-1 chunk, consuming the sixteen chunk words
(round function and constant of the first stage) while building the
schedule window. -/
def sha1RoundsA : List Nat → (Nat × Nat × Nat × Nat × Nat) × Nat → Nat →
    (Nat × Nat × Nat × Nat × Nat) × Nat
  | [], stw, _ => stw
  | w :: ws, stw, i => sha1RoundsA ws (sha1Round i w stw.1, winPush w stw.2) (i + 1)

/-- Rounds 16 to 79 of a SHA-1 chunk: each schedule word is the rotation
of the exclusive or of the words 3, 8, 14 and 16 steps back. -/
def sha1RoundsB : Nat → (Nat × Nat × Nat × Nat × Nat) × Nat → Nat →
    Nat × Nat × Nat × Nat × Nat
  | 0, stw, _ => stw.1
  | n + 1, stw, i =>
    let w := rotl 1 (Nat.xor (Nat.xor (winGet stw.2 2) (winGet stw.2 7))
                     (Nat.xor (winGet stw.2 13) (winGet stw.2 15)))
    sha1RoundsB n (sha1Round i w stw.1, winPush w stw.2) (i + 1)

/-- SHA-1 compression of one 64-byte chunk. -/
def sha1Chunk (h : Nat × Nat × Nat × Nat × Nat) (chunk : List Nat) :
    Nat × Nat × Nat × Nat × Nat :=
  let f := sha1RoundsB 64 (sha1RoundsA (wordsBE chunk) (h, 0) 0) 16
  (w32 (h.1 + f.1), w32 (h.2.1 + f.2.1), w32 (h.2.2.1 + f.2.2.1),
   w32 (h.2.2.2.1 + f.2.2.2.1), w32 (h.2.2.2.2 + f.2.2.2.2))

/-- SHA-1 digest (20 bytes) of a byte list. -/
def sha1Bytes (msg : List Nat) : List Nat :=
  let fin := List.foldl sha1Chunk
    (1732584193, 4023233417, 2562383102, 271733878, 3285377520)
    (chunks64 (shaPad msg))
  be32 fin.1 ++ be32 fin.2.1 ++ be32 fin.2.2.1
    ++ be32 fin.2.2.2.1 ++ be32 fin.2.2.2.2

/-- HMAC-SHA1 digest (20 bytes), modelling hmac.new(key, msg, hashlib.sha1). -/
def hmacSha1 (key msg : List Nat) : List Nat :=
  let k0 := if 64 < key.length then sha1Bytes key else key
  let kp := k0 ++ List.replicate (64 - k0.length) 0
  sha1Bytes ((kp.map (fun b => Nat.xor b 92))
    ++ sha1Bytes ((kp.map (fun b => Nat.xor b 54)) ++ msg))

/-- Lowercase hexadecimal digit. -/
def hexDigitChar (n : Nat) : Char :=
  if n < 10 then Char.ofNat (48 + n) else Char.ofNat (87 + n)

/-- Two lowercase hex characters of one byte. -/
def hexByteChars (b : Nat) : List Char := [hexDigitChar (b / 16), hexDigitChar (b % 16)]

/-- Lowercase hex string of a byte list, modelling hexdigest(). -/
def hexOfBytes (l : List Nat) : List Char := (l.map hexByteChars).flatten

/-- Hex digest characters of HMAC-SHA1, the digest that gsaConfig embeds. -/
def hmacHexChars (key msg : List Nat) : List Char := hexOfBytes (hmacSha1 key msg)

/-- XML sibling forest of the fragment the tool manipulates.  A value
represents a minidom sibling list in order: nil ends the list, text is a
character-data node followed by the remaining siblings, elem is an
element (tag, children forest) followed by the remaining siblings.  The
node kinds minidom produces for the configuration documents handled here
are exactly elements and character data. -/
inductive XForest where
  | nil : XForest
  | text : List Char → XForest → XForest
  | elem : List Char → XForest → XForest → XForest

/-- Concatenation of two sibling forests. -/
def xapp : XForest → XForest → XForest
  | .nil, b => b
  | .text t r, b => .text t (xapp r b)
  | .elem tg k r, b => .elem tg k (xapp r b)

/-- Characters allowed in an element name by the embedded parser. -/
def isNameChar (c : Char) : Bool :=
  c.isAlpha || c.isDigit || c = '_' || c = '-'

/-- Valid element name: nonempty and made of name characters. -/
def validTag (t : List Char) : Bool := !t.isEmpty && t.all isNameChar

/-- Escape of one character of character data, matching minidom's
_write_data which rewrites the ampersand, angle brackets and double
quote to entity references. -/
def escChar (c : Char) : List Char :=
  if c = '&' then cs "&amp;"
  else if c = '<' then cs "&lt;"
  else if c = '"' then cs "&quot;"
  else if c = '>' then cs "&gt;"
  else [c]

/-- Escaped serialization of character data. -/
def escChars (t : List Char) : List Char := (t.map escChar).flatten

/-- Serialization of a sibling forest, matching minidom writexml with no
added whitespace: childless elements print self-closed, nonempty elements
print open tag, children, close tag, text prints escaped. -/
def serForest : XForest → List Char
  | .nil => []
  | .text t ns => escChars t ++ serForest ns
  | .elem tg .nil ns => '<' :: (tg ++ ['/', '>']) ++ serForest ns
  | .elem tg (.text u k) ns =>
      '<' :: (tg ++ ['>']) ++ serForest (.text u k)
        ++ ('<' :: '/' :: (tg ++ ['>'])) ++ serForest ns
  | .elem tg (.elem tg2 k2 k) ns =>
      '<' :: (tg ++ ['>']) ++ serForest (.elem tg2 k2 k)
        ++ ('<' :: '/' :: (tg ++ ['>'])) ++ serForest ns

/-- Serialization of one element node (Element.toxml). -/
def serElemChars (tg : List Char) (kids : XForest) : List Char :=
  serForest (.elem tg kids .nil)

/-- XML declaration that Document.toxml prints. -/
def declChars : List Char := cs "<?xml version=\"1.0\" ?>"

/-- Serialization of a whole document (Document.toxml): declaration then
the document children. -/
def serDocChars (d : XForest) : List Char := declChars ++ serForest d

/-- Count of elements with a given tag anywhere in a forest. -/
def countTag (tag : List Char) : XForest → Nat
  | .nil => 0
  | .text _ ns => countTag tag ns
  | .elem tg kids ns =>
      (if tg = tag then 1 else 0) + countTag tag kids + countTag tag ns

/-- Children of the first element with the given tag in document order,
modelling getElementsByTagName(tag).item(0). -/
def findTagChildren (tag : List Char) : XForest → Option XForest
  | .nil => none
  | .text _ ns => findTagChildren tag ns
  | .elem tg kids ns =>
      if tg = tag then some kids
      else
        match findTagChildren tag kids with
        | some r => some r
        | none => findTagChildren tag ns

/-- Removal of the first element with the given tag in document order,
modelling node.parentNode.removeChild(node); none when the tag is absent. -/
def removeFirstTag (tag : List Char) : XForest → Option XForest
  | .nil => none
  | .text t ns => (removeFirstTag tag ns).map (.text t ·)
  | .elem tg kids ns =>
      if tg = tag then some ns
      else
        match removeFirstTag tag kids with
        | some kids2 => some (.elem tg kids2 ns)
        | none => (removeFirstTag tag ns).map (.elem tg kids ·)

/-- In-place update of the children of the first element with the given
tag in document order, modelling mutation through the node reference
returned by getElementsByTagName. -/
def updateFirstTag (tag : List Char) (g : XForest → XForest) : XForest → XForest
  | .nil => .nil
  | .text t ns => .text t (updateFirstTag tag g ns)
  | .elem tg kids ns =>
      if tg = tag then .elem tg (g kids) ns
      else if 0 < countTag tag kids then .elem tg (updateFirstTag tag g kids) ns
      else .elem tg kids (updateFirstTag tag g ns)

/-- Replacement of the data of the head sibling when it is a text node,
modelling assignment to node.firstChild.nodeValue: on a text node the
data changes, on an element node the assignment only creates a dead
Python attribute and leaves the tree unchanged. -/
def setHeadText (v : List Char) : XForest → XForest
  | .text _ r => .text v r
  | other => other

/-- Errors of the embedded operations; see the header comment for the
correspondence with the Python failure modes. -/
inductive GsaError where
  | parseError : GsaError
  | structureError : String → GsaError
  | alreadyExistsError : GsaError

/-- Character data reader: consumes up to the next markup start, decoding
the entity references the serializer can produce; a bare ampersand not
forming a recognized entity is a parse error. -/
def parseTextAux : List Char → Except GsaError (List Char × List Char)
  | [] => .ok ([], [])
  | c :: r =>
    if c = '<' then .ok ([], c :: r)
    else if c = '&' then
      match r with
      | 'a' :: 'm' :: 'p' :: ';' :: r2 =>
          (parseTextAux r2).map (fun p => ('&' :: p.1, p.2))
      | 'l' :: 't' :: ';' :: r2 =>
          (parseTextAux r2).map (fun p => ('<' :: p.1, p.2))
      | 'g' :: 't' :: ';' :: r2 =>
          (parseTextAux r2).map (fun p => ('>' :: p.1, p.2))
      | 'q' :: 'u' :: 'o' :: 't' :: ';' :: r2 =>
          (parseTextAux r2).map (fun p => ('"' :: p.1, p.2))
      | 'a' :: 'p' :: 'o' :: 's' :: ';' :: r2 =>
          (parseTextAux r2).map (fun p => ('\x27' :: p.1, p.2))
      | _ => .error .parseError
    else
      (parseTextAux r).map (fun p => (c :: p.1, p.2))

/-- Fueled recursive-descent content parser: reads a sequence of sibling
nodes, stopping at the end of input or before a closing tag, which is
left in the remainder. -/
def parseNodes : Nat → List Char → Except GsaError (XForest × List Char)
  | 0, _ => .error .parseError
  | _ + 1, [] => .ok (.nil, [])
  | fuel + 1, c :: r =>
    if c = '<' then
      if r.head? = some '/' then .ok (.nil, c :: r)
      else
        let tag := r.takeWhile isNameChar
        if tag.isEmpty then .error .parseError
        else
          match r.dropWhile isNameChar with
          | '/' :: '>' :: r2 =>
              (parseNodes fuel r2).map (fun p => (.elem tag .nil p.1, p.2))
          | '>' :: r2 =>
            match parseNodes fuel r2 with
            | .error e => .error e
            | .ok (kids, r3) =>
              match r3 with
              | '<' :: '/' :: r4 =>
                if r4.takeWhile isNameChar = tag then
                  match r4.dropWhile isNameChar with
                  | '>' :: r5 =>
                      (parseNodes fuel r5).map
                        (fun p => (.elem tag kids p.1, p.2))
                  | _ => .error .parseError
                else .error .parseError
              | _ => .error .parseError
          | _ => .error .parseError
    else
      match parseTextAux (c :: r) with
      | .error e => .error e
      | .ok (t, r2) =>
          (parseNodes fuel r2).map (fun p => (.text t p.1, p.2))

/-- Scan past the end of an XML declaration or processing instruction. -/
def skipToDeclEnd : List Char → Option (List Char)
  | [] => none
  | c :: r =>
      if c = '?' ∧ r.head? = some '>' then some r.tail
      else skipToDeclEnd r

/-- Whitespace of the XML grammar. -/
def isXmlWs (c : Char) : Bool := c = ' ' || c = '\t' || c = '\n' || c = '\r'

/-- Whitespace-only trailing siblings test, for material after the root. -/
def allWsText : XForest → Bool
  | .nil => true
  | .text t ns => t.all isXmlWs && allWsText ns
  | .elem _ _ _ => false

/-- Document parser, modelling xml.dom.minidom.parseString on the
embedded fragment: optional leading whitespace and declaration, exactly
one root element, optional trailing whitespace.  The document node's
children are returned as a forest holding the single root element. -/
def parseDoc (s : List Char) : Except GsaError XForest := do
  let t := s.dropWhile isXmlWs
  let t2 ←
    match t with
    | '<' :: '?' :: r =>
      match skipToDeclEnd r with
      | some r2 => Except.ok r2
      | none => Except.error GsaError.parseError
    | _ => Except.ok t
  let t3 := t2.dropWhile isXmlWs
  let (ns, rest) ← parseNodes (t3.length + 1) t3
  match ns, rest with
  | .elem tg kids tl, [] =>
      if allWsText tl then .ok (.elem tg kids .nil)
      else .error .parseError
  | _, _ => .error .parseError

/-- Pre-parse whitespace normalization of computeSignature: the two
re.sub calls collapsing the ten-space indentation before an uam_dir open
tag and the newline after its close tag. -/
def subUam (s : List Char) : List Char :=
  replaceAllSub (replaceAllSub s (cs "          <uam_dir>") (cs "<uam_dir>"))
    (cs "</uam_dir>\n") (cs "</uam_dir>")

/-- Step of computeSignature removing the first uam_dir element; a missing
element means getElementsByTagName("uam_dir").item(0) returned None and
the following parentNode dereference raised. -/
def removeUamStep (d : XForest) : Except GsaError XForest :=
  match removeFirstTag (cs "uam_dir") d with
  | none => .error (.structureError "uam_dir")
  | some d1 => .ok d1

/-- Replacement text that computeSignature writes into uar_data when its
content is non-blank: newline, dummy path with comma, hex digest of the
stripped content plus newline, newline and ten spaces. -/
def uarReplacementText (pw v : List Char) : List Char :=
  cs "\n/tmp/tmp_uar_data_dir," ++
    hmacHexChars (strBytes pw) (strBytes (pyStrip v ++ ['\n'])) ++
    cs "\n          "

/-- Step of computeSignature handling uar_data: read the first child's
node value, strip it and append a newline; when the result is just the
newline (blank content) the tree is unchanged, otherwise the first
child's text becomes the dummy-path-plus-digest replacement.  Failure
modes mirror the Python attribute errors: missing element, missing first
child, first child without a string nodeValue. -/
def uarStep (pw : List Char) (d1 : XForest) : Except GsaError XForest :=
  match findTagChildren (cs "uar_data") d1 with
  | none => .error (.structureError "uar_data")
  | some .nil => .error (.structureError "uar_data.firstChild")
  | some (.elem _ _ _) => .error (.structureError "uar_data.nodeValue")
  | some (.text v _) =>
      if pyStrip v ++ ['\n'] = ['\n'] then .ok d1
      else .ok (updateFirstTag (cs "uar_data")
        (setHeadText (uarReplacementText pw v)) d1)

/-- Embedding of gsaConfig.computeSignature: normalize the raw text,
parse, remove the first uam_dir, rewrite non-blank uar_data, then return
the HMAC-SHA1 hex digest (password as key) of the serialization of the
first config element. -/
def computeSignatureRaw (s pw : List Char) : Except GsaError (List Char) := do
  let d ← parseDoc (subUam s)
  let d1 ← removeUamStep d
  let d2 ← uarStep pw d1
  match findTagChildren (cs "config") d2 with
  | none => .error (.structureError "config")
  | some kids =>
      .ok (hmacHexChars (strBytes pw) (strBytes (serElemChars (cs "config") kids)))

/-- Embedding of gsaConfig.sign: compute the digest, reparse the raw
content, write the digest into the first signature element's first child,
and store the full document serialization (declaration included) as the
new raw content. -/
def signRaw (s pw : List Char) : Except GsaError (List Char) := do
  let dg ← computeSignatureRaw s pw
  let d ← parseDoc s
  match findTagChildren (cs "signature") d with
  | none => .error (.structureError "signature")
  | some .nil => .error (.structureError "signature.firstChild")
  | some (.text _ _) | some (.elem _ _ _) =>
      .ok (serDocChars (updateFirstTag (cs "signature") (setHeadText dg) d))

/-- Embedding of gsaConfig.verifySignature: compute the digest, reparse
the raw content, read the first signature element's first child's node
value, and report whether the digest occurs within it as a substring
(str.count truthiness); a mismatch is an ordinary false result. -/
def verifyRaw (s pw : List Char) : Except GsaError Bool := do
  let dg ← computeSignatureRaw s pw
  let d ← parseDoc s
  match findTagChildren (cs "signature") d with
  | none => .error (.structureError "signature")
  | some .nil => .error (.structureError "signature.firstChild")
  | some (.elem _ _ _) => .error (.structureError "signature.count")
  | some (.text t _) => .ok (containsSub t dg)

/-- Object state of a gsaConfig instance: the bytes of
self.configXMLString. -/
def GsaState : Type := List Char

/-- Method view of computeSignature: the Python method only reads
self.configXMLString and never assigns it, so the state is returned
untouched alongside the result. -/
def computeSignatureM (c : GsaState) (pw : List Char) :
    Except GsaError (List Char) × GsaState :=
  (computeSignatureRaw c pw, c)

/-- Method view of sign: on success setXMLContents replaces the raw
content with the reserialized document, on an exception the state is
untouched. -/
def signM (c : GsaState) (pw : List Char) : Except GsaError Unit × GsaState :=
  match signRaw c pw with
  | .ok s2 => (.ok (), s2)
  | .error e => (.error e, c)

/-- Method view of verifySignature: read-only on the state. -/
def verifySignatureM (c : GsaState) (pw : List Char) :
    Except GsaError Bool × GsaState :=
  (verifyRaw c pw, c)

/-- File store for writeFile, an association list from path to content. -/
def fsLookup (fs : List (List Char × List Char)) (k : List Char) :
    Option (List Char) :=
  match fs with
  | [] => none
  | (a, v) :: r => if a = k then some v else fsLookup r k

/-- Content written by gsaConfig.writeFile: the reparsed document's
serialization with a newline inserted before the first occurrence of the
eef open tag. -/
def writeFileContent (c : List Char) : Except GsaError (List Char) :=
  (parseDoc c).map (fun d => replaceFirstSub (serDocChars d) (cs "<eef>") (cs "\n<eef>"))

/-- Embedding of gsaConfig.writeFile: an existing destination path aborts
before anything is written (os.path.exists check followed by
sys.exit(1)), otherwise the rendered content is stored at the path. -/
def writeFileM (fs : List (List Char × List Char)) (name : List Char)
    (c : GsaState) : Except GsaError Unit × List (List Char × List Char) :=
  if (fsLookup fs name).isSome then (.error .alreadyExistsError, fs)
  else
    match writeFileContent c with
    | .error e => (.error e, fs)
    | .ok out => (.ok (), (name, out) :: fs)

/-- Structural-failure test on a result: the computation raised the
missing-required-element error for some element. -/
def isStructureFailure {α : Type} (r : Except GsaError α) : Prop :=
  ∃ m, r = .error (.structureError m)

/-- Lowercase hexadecimal digit test, for stating the digest alphabet. -/
def isLowerHexDigit (c : Char) : Bool :=
  ('0' ≤ c && c ≤ '9') || ('a' ≤ c && c ≤ 'f')

deriving instance DecidableEq for GsaError

deriving instance DecidableEq for XForest

deriving instance DecidableEq for Except

/-- Serializability discipline on a forest: valid tag names, nonempty
text data, and no two adjacent text nodes (the parser merges adjacent
character data, so only such forests round-trip). -/
def wfForest : XForest → Bool
  | .nil => true
  | .text t ns =>
      (!t.isEmpty) &&
      (match ns with | .text _ _ => false | _ => true) &&
      wfForest ns
  | .elem tg kids ns => validTag tg && wfForest kids && wfForest ns

/-- Absence of all four special elements from a forest, the side
condition making first-match lookups land on the schema occurrences. -/
def noSpecial (f : XForest) : Bool :=
  countTag (cs "uam_dir") f = 0 && countTag (cs "uar_data") f = 0 &&
  countTag (cs "config") f = 0 && countTag (cs "signature") f = 0

/-- Example document with the signature element inside the config
subtree, the shape of the end-to-end example of the specification. -/
def exSigInsideDoc : List Char :=
  cs "<eef><config><uam_dir>u</uam_dir><uar_data> </uar_data><signature>old</signature></config></eef>"

/-- Example document in the canonical appliance layout: ten-space
indentation before uam_dir, blank uar_data, signature outside config. -/
def exCanonicalDoc : List Char :=
  cs "<eef>\n<config>k\n          <uam_dir>/x</uam_dir>\n          <uar_data>\n</uar_data>\n</config>\n<signature>old</signature>\n</eef>"

/-- Example document with ten-space indented uam_dir for the uam_dir
retention check. -/
def exTenSpaceDoc : List Char :=
  cs "<eef><config>\n          <uam_dir>/y</uam_dir>\n<uar_data> </uar_data></config><signature>s</signature></eef>"

/-- Example plain document with all four elements, blank uar_data and a
stored signature value that matches no digest. -/
def exPlainDoc : List Char :=
  cs "<eef><uam_dir/><config><uar_data> </uar_data></config><signature>deadbeef</signature></eef>"

/-- Example document with none of the required elements. -/
def exBareDoc : List Char := cs "<eef><foo/></eef>"

/-- Example document whose uar_data element is entirely childless. -/
def exChildlessUarDoc : List Char :=
  cs "<eef><uam_dir>u</uam_dir><uar_data/><config>c</config><signature>s</signature></eef>"

/-- Example password meeting the eight-character minimum of the CLI. -/
def exPw : List Char := cs "hellohello"

/-- Final text of the uar_data element in the canonical view: unchanged
when blank after stripping, otherwise the dummy-path replacement. -/
def uarFinalText (pw v : List Char) : List Char :=
  if pyStrip v ++ ['\n'] = ['\n'] then v else uarReplacementText pw v

/-- Children of the config element in the canonical view of a document
in the schema below: the uam_dir element is gone and the uar_data text
is the canonical final text. -/
def cfgCanonKids (pw : List Char) (c1 c2 : XForest) (v : List Char)
    (uarRest c3 : XForest) : XForest :=
  xapp c1 (xapp c2 (.elem (cs "uar_data")
    (.text (uarFinalText pw v) uarRest) c3))

/-- Digest that computeSignature produces on a document in the schema
below. -/
def roundDigest (pw : List Char) (c1 c2 : XForest) (v : List Char)
    (uarRest c3 : XForest) : List Char :=
  hmacHexChars (strBytes pw)
    (strBytes (serElemChars (cs "config") (cfgCanonKids pw c1 c2 v uarRest c3)))

/-- Document schema of the round-trip statement: a single root whose
children are a fragment pre, then the config element, whose children are
a fragment c1, the uam_dir element, a fragment c2, the uar_data element
(text first child v, remaining children uarRest) and a fragment c3; the
material after the config element (where the signature element lives) is
an arbitrary trailing forest. -/
def schemaDoc (rootTag : List Char) (pre c1 uamKids c2 : XForest)
    (v : List Char) (uarRest c3 tail : XForest) : XForest :=
  .elem rootTag (xapp pre (.elem (cs "config")
    (xapp c1 (.elem (cs "uam_dir") uamKids
      (xapp c2 (.elem (cs "uar_data") (.text v uarRest) c3)))) tail)) .nil

/-- Every byte of a SHA-1 digest is below 256. -/
theorem sha1Bytes_lt (msg : List Nat) : ∀ b ∈ sha1Bytes msg, b < 256 := by
  intro b hb
  simp only [sha1Bytes, be32, List.mem_append, List.mem_cons,
    List.not_mem_nil, or_false] at hb
  rcases hb with h | h | h | h | h | h | h | h | h | h | h | h | h | h | h | h |
    h | h | h | h <;> omega

/-- Hex encoding doubles the length. -/
theorem hexOfBytes_length (l : List Nat) : (hexOfBytes l).length = 2 * l.length := by
  induction l with
  | nil => rfl
  | cons b r ih =>
    simp only [hexOfBytes, List.map_cons, List.flatten_cons, List.length_append,
      List.length_cons, hexByteChars, List.length_nil] at *
    omega

/-- SHA-1 digests are 20 bytes long. -/
theorem sha1Bytes_length (msg : List Nat) : (sha1Bytes msg).length = 20 := by
  simp [sha1Bytes, be32]

/-- The hex digest of HMAC-SHA1 is 40 characters long. -/
theorem hmacHexChars_length (key msg : List Nat) : (hmacHexChars key msg).length = 40 := by
  simp [hmacHexChars, hexOfBytes_length, hmacSha1, sha1Bytes_length]

/-- Hex digits of a byte below 256 are lowercase hex characters. -/
theorem hexByteChars_lowerHex (b : Nat) (hb : b < 256) :
    (hexByteChars b).all isLowerHexDigit = true := by
  have hlt : ∀ n, n < 16 → isLowerHexDigit (hexDigitChar n) = true := by decide
  have h1 : b / 16 < 16 := by omega
  have h2 : b % 16 < 16 := by omega
  simp [hexByteChars, hlt _ h1, hlt _ h2]

/-- The hex digest of HMAC-SHA1 uses only lowercase hex characters. -/
theorem hmacHexChars_lowerHex (key msg : List Nat) :
    (hmacHexChars key msg).all isLowerHexDigit = true := by
  have hlt := sha1Bytes_lt ((( if 64 < key.length then sha1Bytes key else key)
      ++ List.replicate (64 - (if 64 < key.length then sha1Bytes key else key).length) 0).map
        (fun b => Nat.xor b 92) ++ sha1Bytes
          ((((if 64 < key.length then sha1Bytes key else key)
            ++ List.replicate (64 - (if 64 < key.length then sha1Bytes key else key).length) 0).map
              (fun b => Nat.xor b 54)) ++ msg))
  simp only [hmacHexChars, hmacSha1, hexOfBytes, List.all_eq_true]
  intro c hc
  simp only [List.mem_flatten, List.mem_map] at hc
  obtain ⟨l, ⟨b, hb, rfl⟩, hcl⟩ := hc
  have := hexByteChars_lowerHex b (hlt b hb)
  simp only [List.all_eq_true] at this
  exact this c hcl

/-- C7: for a fixed raw byte content and password, computeSignature
returns the same digest on every call: a second call made on the state
left behind by the first call returns the identical result, because the
method reads only self.configXMLString and the password and writes no
state. -/
theorem C7_computeSignature_deterministic (c : GsaState) (pw : List Char) :
    (computeSignatureM c pw).1 = (computeSignatureM (computeSignatureM c pw).2 pw).1 ∧
      computeSignatureM c pw = (computeSignatureRaw c pw, c) :=
  ⟨rfl, rfl⟩

/-- C9: computeSignature has no side effect on the caller's document:
the raw byte content after the call is the content before it, and hence
the parsed-tree view is also unchanged; only sign mutates the state. -/
theorem C9_computeSignature_frame (c : GsaState) (pw : List Char) :
    (computeSignatureM c pw).2 = c ∧
      parseDoc (computeSignatureM c pw).2 = parseDoc c :=
  ⟨rfl, rfl⟩

/-- C8: writeFile against an existing destination path fails with the
already-exists error, performs no write, and leaves the stored content of
the path unchanged. -/
theorem C8_writeFile_existing_path (fs : List (List Char × List Char))
    (name : List Char) (c : GsaState) (old : List Char)
    (h : fsLookup fs name = some old) :
    writeFileM fs name c = (.error .alreadyExistsError, fs) ∧
      fsLookup (writeFileM fs name c).2 name = some old := by
  have hs : (fsLookup fs name).isSome = true := by rw [h]; rfl
  refine ⟨by simp [writeFileM, hs], ?_⟩
  simp [writeFileM, hs, h]

/-- Witness for C8 at a concrete store holding the destination path. -/
theorem C8_writeFile_existing_path_witness :
    writeFileM [(cs "o.xml", cs "old")] (cs "o.xml") exPlainDoc =
        (.error .alreadyExistsError, [(cs "o.xml", cs "old")]) ∧
      fsLookup (writeFileM [(cs "o.xml", cs "old")] (cs "o.xml") exPlainDoc).2
        (cs "o.xml") = some (cs "old") :=
  C8_writeFile_existing_path _ _ _ _ (by decide)

/-- C10: a uar_data element that is present but entirely childless (such
as the empty element form) makes computeSignature fail with the
missing-first-child error instead of being treated as the accepted
blank-content case: firstChild is None and the nodeValue access raises. -/
theorem C10_childless_uar_data (s pw : List Char) (d d1 : XForest)
    (hp : parseDoc (subUam s) = .ok d)
    (hr : removeFirstTag (cs "uam_dir") d = some d1)
    (hu : findTagChildren (cs "uar_data") d1 = some .nil) :
    computeSignatureRaw s pw = .error (.structureError "uar_data.firstChild") := by
  simp [computeSignatureRaw, hp, removeUamStep, hr, uarStep, hu,
    Except.bind, bind, Except.instMonad]

/-- Witness for C10 at the concrete childless uar_data document. -/
theorem C10_childless_uar_data_witness :
    computeSignatureRaw exChildlessUarDoc exPw =
      .error (.structureError "uar_data.firstChild") :=
  C10_childless_uar_data _ _
    (.elem (cs "eef")
      (.elem (cs "uam_dir") (.text (cs "u") .nil)
        (.elem (cs "uar_data") .nil
          (.elem (cs "config") (.text (cs "c") .nil)
            (.elem (cs "signature") (.text (cs "s") .nil) .nil)))) .nil)
    (.elem (cs "eef")
      (.elem (cs "uar_data") .nil
        (.elem (cs "config") (.text (cs "c") .nil)
          (.elem (cs "signature") (.text (cs "s") .nil) .nil))) .nil)
    (by decide) (by decide) (by decide)

/-- C2: whenever the digest is computable and the signature element's
stored first child is character data t, verifySignature returns exactly
the boolean saying whether the digest occurs as a substring of t; in
particular a mismatch is an ordinary false result, not an error. -/
theorem C2_verify_iff_substring (s pw dg t : List Char) (d r : XForest)
    (hc : computeSignatureRaw s pw = .ok dg)
    (hp : parseDoc s = .ok d)
    (hf : findTagChildren (cs "signature") d = some (.text t r)) :
    verifyRaw s pw = .ok (containsSub t dg) := by
  simp [verifyRaw, hc, hp, hf, Except.bind, bind, Except.instMonad]

/-- Witness for C2 at a concrete document whose stored signature value
matches no digest: the mismatch is reported as an ordinary false. -/
theorem C2_verify_iff_substring_witness :
    verifyRaw exPlainDoc exPw = .ok false := by
  have h := C2_verify_iff_substring exPlainDoc exPw
    (hmacHexChars (strBytes exPw) (strBytes (serElemChars (cs "config")
      (.elem (cs "uar_data") (.text (cs " ") .nil) .nil))))
    (cs "deadbeef")
    (.elem (cs "eef")
      (.elem (cs "uam_dir") .nil
        (.elem (cs "config") (.elem (cs "uar_data") (.text (cs " ") .nil) .nil)
          (.elem (cs "signature") (.text (cs "deadbeef") .nil) .nil))) .nil)
    .nil
    (by decide) (by decide) (by decide)
  rw [h]
  decide

/-- C3: in the canonical view, a uar_data element whose first child is
character data v is left unchanged when v is blank after stripping;
otherwise its first child's text becomes a newline, the literal dummy
path with trailing comma, the 40-character lowercase-hex HMAC-SHA1
digest (under the same password) of the stripped value followed by one
newline, then a newline and ten spaces. -/
theorem C3_uar_data_branching (pw v : List Char) (d1 r : XForest)
    (hf : findTagChildren (cs "uar_data") d1 = some (.text v r)) :
    (pyStrip v = [] → uarStep pw d1 = .ok d1) ∧
    (pyStrip v ≠ [] →
      uarStep pw d1 = .ok (updateFirstTag (cs "uar_data")
        (setHeadText (cs "\n/tmp/tmp_uar_data_dir," ++
          hmacHexChars (strBytes pw) (strBytes (pyStrip v ++ ['\n'])) ++
          cs "\n          ")) d1) ∧
      (hmacHexChars (strBytes pw) (strBytes (pyStrip v ++ ['\n']))).length = 40 ∧
      (hmacHexChars (strBytes pw) (strBytes (pyStrip v ++ ['\n']))).all
        isLowerHexDigit = true) := by
  constructor
  · intro h0
    simp [uarStep, hf, h0]
  · intro hne
    have hcond : ¬ (pyStrip v ++ ['\n'] = ['\n']) := by
      intro he
      have hlen := congrArg List.length he
      simp only [List.length_append, List.length_cons, List.length_nil] at hlen
      exact hne (List.eq_nil_of_length_eq_zero (by omega))
    refine ⟨?_, hmacHexChars_length _ _, hmacHexChars_lowerHex _ _⟩
    simp [uarStep, hf, hcond, uarReplacementText]

/-- Witness for C3 at the concrete non-blank base64 content of the
specification example, inside a config parent. -/
theorem C3_uar_data_branching_witness :
    (pyStrip (cs "AAAAAAAAAA==") = [] →
      uarStep exPw (.elem (cs "config")
        (.elem (cs "uar_data") (.text (cs "AAAAAAAAAA==") .nil) .nil) .nil) =
        .ok (.elem (cs "config")
          (.elem (cs "uar_data") (.text (cs "AAAAAAAAAA==") .nil) .nil) .nil)) ∧
    (pyStrip (cs "AAAAAAAAAA==") ≠ [] →
      uarStep exPw (.elem (cs "config")
        (.elem (cs "uar_data") (.text (cs "AAAAAAAAAA==") .nil) .nil) .nil) =
        .ok (updateFirstTag (cs "uar_data")
          (setHeadText (cs "\n/tmp/tmp_uar_data_dir," ++
            hmacHexChars (strBytes exPw)
              (strBytes (pyStrip (cs "AAAAAAAAAA==") ++ ['\n'])) ++
            cs "\n          "))
          (.elem (cs "config")
            (.elem (cs "uar_data") (.text (cs "AAAAAAAAAA==") .nil) .nil) .nil)) ∧
      (hmacHexChars (strBytes exPw)
        (strBytes (pyStrip (cs "AAAAAAAAAA==") ++ ['\n']))).length = 40 ∧
      (hmacHexChars (strBytes exPw)
        (strBytes (pyStrip (cs "AAAAAAAAAA==") ++ ['\n']))).all
          isLowerHexDigit = true) :=
  C3_uar_data_branching exPw (cs "AAAAAAAAAA==")
    (.elem (cs "config")
      (.elem (cs "uar_data") (.text (cs "AAAAAAAAAA==") .nil) .nil) .nil)
    .nil (by decide)

/-- Lookup of an absent tag returns none. -/
theorem countTag_zero_find_none (t : List Char) (f : XForest)
    (h : countTag t f = 0) : findTagChildren t f = none := by
  induction f with
  | nil => rfl
  | text u ns ih =>
    simp only [countTag] at h
    simp [findTagChildren, ih h]
  | elem tg kids ns ihk ihn =>
    simp only [countTag] at h
    by_cases htg : tg = t
    · rw [if_pos htg] at h; omega
    · rw [if_neg htg] at h
      simp [findTagChildren, htg, ihk (by omega), ihn (by omega)]

/-- Removal of an absent tag returns none. -/
theorem countTag_zero_remove_none (t : List Char) (f : XForest)
    (h : countTag t f = 0) : removeFirstTag t f = none := by
  induction f with
  | nil => rfl
  | text u ns ih =>
    simp only [countTag] at h
    simp [removeFirstTag, ih h]
  | elem tg kids ns ihk ihn =>
    simp only [countTag] at h
    by_cases htg : tg = t
    · rw [if_pos htg] at h; omega
    · rw [if_neg htg] at h
      simp [removeFirstTag, htg, ihk (by omega), ihn (by omega)]

/-- Removal never increases the count of any tag. -/
theorem removeFirstTag_countTag_le (t u : List Char) (f f1 : XForest)
    (h : removeFirstTag t f = some f1) : countTag u f1 ≤ countTag u f := by
  induction f generalizing f1 with
  | nil => simp [removeFirstTag] at h
  | text v ns ih =>
    cases hrm : removeFirstTag t ns with
    | none => simp [removeFirstTag, hrm] at h
    | some ns1 =>
      simp only [removeFirstTag, hrm, Option.map_some', Option.some_inj] at h
      rw [← h]
      simpa [countTag] using ih ns1 hrm
  | elem tg kids ns ihk ihn =>
    by_cases htg : tg = t
    · simp only [removeFirstTag, if_pos htg, Option.some_inj] at h
      rw [← h]
      simp only [countTag]
      omega
    · cases hrk : removeFirstTag t kids with
      | some kids2 =>
        simp only [removeFirstTag, if_neg htg, hrk, Option.some_inj] at h
        rw [← h]
        simp only [countTag]
        have := ihk kids2 hrk
        omega
      | none =>
        cases hrn : removeFirstTag t ns with
        | none => simp [removeFirstTag, htg, hrk, hrn] at h
        | some ns1 =>
          simp only [removeFirstTag, if_neg htg, hrk, hrn, Option.map_some',
            Option.some_inj] at h
          rw [← h]
          simp only [countTag]
          have := ihn ns1 hrn
          omega

/-- Removal of a present tag removes at least one occurrence of it. -/
theorem removeFirstTag_countTag_lt (t : List Char) (f f1 : XForest)
    (h : removeFirstTag t f = some f1) : countTag t f1 + 1 ≤ countTag t f := by
  induction f generalizing f1 with
  | nil => simp [removeFirstTag] at h
  | text v ns ih =>
    cases hrm : removeFirstTag t ns with
    | none => simp [removeFirstTag, hrm] at h
    | some ns1 =>
      simp only [removeFirstTag, hrm, Option.map_some', Option.some_inj] at h
      rw [← h]
      simpa [countTag] using ih ns1 hrm
  | elem tg kids ns ihk ihn =>
    by_cases htg : tg = t
    · simp only [removeFirstTag, if_pos htg, Option.some_inj] at h
      rw [← h]
      simp only [countTag, if_pos htg]
      omega
    · cases hrk : removeFirstTag t kids with
      | some kids2 =>
        simp only [removeFirstTag, if_neg htg, hrk, Option.some_inj] at h
        rw [← h]
        simp only [countTag, if_neg htg]
        have := ihk kids2 hrk
        omega
      | none =>
        cases hrn : removeFirstTag t ns with
        | none => simp [removeFirstTag, htg, hrk, hrn] at h
        | some ns1 =>
          simp only [removeFirstTag, if_neg htg, hrk, hrn, Option.map_some',
            Option.some_inj] at h
          rw [← h]
          simp only [countTag, if_neg htg]
          have := ihn ns1 hrn
          omega

/-- Rewriting the head text of some element's children changes no tag
count. -/
theorem setHeadText_countTag (u x : List Char) (kids : XForest) :
    countTag u (setHeadText x kids) = countTag u kids := by
  cases kids <;> simp [setHeadText, countTag]

/-- The uar_data text update of the canonical view changes no tag count. -/
theorem updateFirstTag_setHeadText_countTag (t u x : List Char) (f : XForest) :
    countTag u (updateFirstTag t (setHeadText x) f) = countTag u f := by
  induction f with
  | nil => rfl
  | text v ns ih => simp [updateFirstTag, countTag, ih]
  | elem tg kids ns ihk ihn =>
    by_cases htg : tg = t
    · simp [updateFirstTag, htg, countTag, setHeadText_countTag]
    · by_cases hk : 0 < countTag t kids
      · simp [updateFirstTag, htg, hk, countTag, ihk]
      · simp [updateFirstTag, htg, hk, countTag, ihn]

/-- Shape of computeSignature on a document that parses: either it fails
with a missing-element structural error, or it succeeds and the parsed
tree contained at least one uam_dir, uar_data and config element. -/
theorem computeSignatureRaw_shape (s pw : List Char) (d : XForest)
    (hpd : parseDoc (subUam s) = .ok d) :
    isStructureFailure (computeSignatureRaw s pw) ∨
      ((∃ dg, computeSignatureRaw s pw = .ok dg) ∧
        1 ≤ countTag (cs "uam_dir") d ∧ 1 ≤ countTag (cs "uar_data") d ∧
        1 ≤ countTag (cs "config") d) := by
  cases hrm : removeFirstTag (cs "uam_dir") d with
  | none =>
    left
    exact ⟨"uam_dir", by
      simp [computeSignatureRaw, hpd, removeUamStep, hrm, Except.bind, bind,
        Except.instMonad]⟩
  | some d1 =>
    have huam : 1 ≤ countTag (cs "uam_dir") d := by
      by_contra hz
      rw [countTag_zero_remove_none (cs "uam_dir") d (by omega)] at hrm
      cases hrm
    cases huf : findTagChildren (cs "uar_data") d1 with
    | none =>
      left
      exact ⟨"uar_data", by
        simp [computeSignatureRaw, hpd, removeUamStep, hrm, uarStep, huf,
          Except.bind, bind, Except.instMonad]⟩
    | some u =>
      have huar1 : 1 ≤ countTag (cs "uar_data") d1 := by
        by_contra hz
        rw [countTag_zero_find_none (cs "uar_data") d1 (by omega)] at huf
        cases huf
      have huar : 1 ≤ countTag (cs "uar_data") d :=
        le_trans huar1 (removeFirstTag_countTag_le _ _ _ _ hrm)
      cases u with
      | nil =>
        left
        exact ⟨"uar_data.firstChild", by
          simp [computeSignatureRaw, hpd, removeUamStep, hrm, uarStep, huf,
            Except.bind, bind, Except.instMonad]⟩
      | elem tg2 k2 r2 =>
        left
        exact ⟨"uar_data.nodeValue", by
          simp [computeSignatureRaw, hpd, removeUamStep, hrm, uarStep, huf,
            Except.bind, bind, Except.instMonad]⟩
      | text v r =>
        by_cases hb : pyStrip v ++ ['\n'] = ['\n']
        · cases hcf : findTagChildren (cs "config") d1 with
          | none =>
            left
            exact ⟨"config", by
              simp [computeSignatureRaw, hpd, removeUamStep, hrm, uarStep, huf,
                hb, hcf, Except.bind, bind, Except.instMonad]⟩
          | some kids =>
            right
            have hcfg1 : 1 ≤ countTag (cs "config") d1 := by
              by_contra hz
              rw [countTag_zero_find_none (cs "config") d1 (by omega)] at hcf
              cases hcf
            refine ⟨⟨hmacHexChars (strBytes pw)
                (strBytes (serElemChars (cs "config") kids)), ?_⟩, huam, huar,
              le_trans hcfg1 (removeFirstTag_countTag_le _ _ _ _ hrm)⟩
            simp [computeSignatureRaw, hpd, removeUamStep, hrm, uarStep, huf,
              hb, hcf, Except.bind, bind, Except.instMonad]
        · cases hcf : findTagChildren (cs "config")
            (updateFirstTag (cs "uar_data")
              (setHeadText (uarReplacementText pw v)) d1) with
          | none =>
            left
            exact ⟨"config", by
              simp [computeSignatureRaw, hpd, removeUamStep, hrm, uarStep, huf,
                hb, hcf, Except.bind, bind, Except.instMonad]⟩
          | some kids =>
            right
            have hcfg1 : 1 ≤ countTag (cs "config") d1 := by
              by_contra hz
              rw [countTag_zero_find_none (cs "config") _
                (by rw [updateFirstTag_setHeadText_countTag]; omega)] at hcf
              cases hcf
            refine ⟨⟨hmacHexChars (strBytes pw)
                (strBytes (serElemChars (cs "config") kids)), ?_⟩, huam, huar,
              le_trans hcfg1 (removeFirstTag_countTag_le _ _ _ _ hrm)⟩
            simp [computeSignatureRaw, hpd, removeUamStep, hrm, uarStep, huf,
              hb, hcf, Except.bind, bind, Except.instMonad]

/-- C6: a well-formed document lacking a signature element makes both
sign and verifySignature fail with the missing-required-element
structural error, not a parse failure; likewise computeSignature fails
structurally when uam_dir, uar_data or config is absent. -/
theorem C6_missing_elements (s pw : List Char) (e d : XForest)
    (hpe : parseDoc s = .ok e)
    (hpd : parseDoc (subUam s) = .ok d)
    (hse : countTag (cs "signature") e = 0) :
    isStructureFailure (signRaw s pw) ∧ isStructureFailure (verifyRaw s pw) ∧
      ((countTag (cs "uam_dir") d = 0 ∨ countTag (cs "uar_data") d = 0 ∨
        countTag (cs "config") d = 0) →
        isStructureFailure (computeSignatureRaw s pw)) := by
  have hfind := countTag_zero_find_none (cs "signature") e hse
  obtain ⟨m, hm⟩ | ⟨⟨dg, hdg⟩, huam, huar, hcfg⟩ :=
    computeSignatureRaw_shape s pw d hpd
  · refine ⟨⟨m, ?_⟩, ⟨m, ?_⟩, fun _ => ⟨m, hm⟩⟩
    · simp [signRaw, hm, Except.bind, bind, Except.instMonad]
    · simp [verifyRaw, hm, Except.bind, bind, Except.instMonad]
  · refine ⟨⟨"signature", ?_⟩, ⟨"signature", ?_⟩, fun habs => ?_⟩
    · simp [signRaw, hdg, hpe, hfind, Except.bind, bind, Except.instMonad]
    · simp [verifyRaw, hdg, hpe, hfind, Except.bind, bind, Except.instMonad]
    · rcases habs with h0 | h0 | h0 <;> omega

/-- Witness for C6 at a concrete well-formed document missing all the
required elements. -/
theorem C6_missing_elements_witness :
    isStructureFailure (signRaw exBareDoc exPw) ∧
      isStructureFailure (verifyRaw exBareDoc exPw) ∧
      ((countTag (cs "uam_dir")
          (.elem (cs "eef") (.elem (cs "foo") .nil .nil) .nil) = 0 ∨
        countTag (cs "uar_data")
          (.elem (cs "eef") (.elem (cs "foo") .nil .nil) .nil) = 0 ∨
        countTag (cs "config")
          (.elem (cs "eef") (.elem (cs "foo") .nil .nil) .nil) = 0) →
        isStructureFailure (computeSignatureRaw exBareDoc exPw)) :=
  C6_missing_elements exBareDoc exPw
    (.elem (cs "eef") (.elem (cs "foo") .nil .nil) .nil)
    (.elem (cs "eef") (.elem (cs "foo") .nil .nil) .nil)
    (by decide) (by decide) (by decide)

/-- A found element's children carry at most the tag count of the whole
forest. -/
theorem findTagChildren_countTag_le (t u : List Char) (f kids : XForest)
    (h : findTagChildren t f = some kids) : countTag u kids ≤ countTag u f := by
  induction f generalizing kids with
  | nil => simp [findTagChildren] at h
  | text v ns ih =>
    simp only [findTagChildren] at h
    simpa [countTag] using ih kids h
  | elem tg kids0 ns ihk ihn =>
    by_cases htg : tg = t
    · simp only [findTagChildren, if_pos htg, Option.some_inj] at h
      rw [← h]
      simp only [countTag]
      omega
    · cases hrk : findTagChildren t kids0 with
      | some r =>
        simp only [findTagChildren, if_neg htg, hrk, Option.some_inj] at h
        rw [← h]
        simp only [countTag]
        have := ihk r hrk
        omega
      | none =>
        simp only [findTagChildren, if_neg htg, hrk] at h
        simp only [countTag]
        have := ihn kids h
        omega

/-- The uar_data canonicalization step changes no tag count. -/
theorem uarStep_countTag (pw : List Char) (d1 d2 : XForest) (u : List Char)
    (h : uarStep pw d1 = .ok d2) : countTag u d2 = countTag u d1 := by
  unfold uarStep at h
  cases hf : findTagChildren (cs "uar_data") d1 with
  | none => simp [hf] at h
  | some w =>
    cases w with
    | nil => simp [hf] at h
    | elem a b c => simp [hf] at h
    | text v r =>
      simp only [hf] at h
      by_cases hb : pyStrip v ++ ['\n'] = ['\n']
      · simp only [if_pos hb, Except.ok.injEq] at h
        rw [← h]
      · simp only [if_neg hb, Except.ok.injEq] at h
        rw [← h]
        exact updateFirstTag_setHeadText_countTag _ _ _ _

/-- C4: for a document whose single uam_dir element survives parsing of
the normalized text, the canonical view hashed by computeSignature
contains no uam_dir element at any stage (after removal, after the
uar_data rewrite, and in the hashed config element); sign, however, does
not remove uam_dir from the document: its tree update touches only the
signature element's text and preserves the uam_dir count. -/
theorem C4_uam_dir_removal (s pw : List Char) (d d1 d2 kids : XForest)
    (hpd : parseDoc (subUam s) = .ok d)
    (h1 : countTag (cs "uam_dir") d = 1)
    (hrm : removeFirstTag (cs "uam_dir") d = some d1)
    (hu : uarStep pw d1 = .ok d2)
    (hcf : findTagChildren (cs "config") d2 = some kids) :
    countTag (cs "uam_dir") d1 = 0 ∧
    countTag (cs "uam_dir") d2 = 0 ∧
    countTag (cs "uam_dir") (.elem (cs "config") kids .nil) = 0 ∧
    computeSignatureRaw s pw =
      .ok (hmacHexChars (strBytes pw)
        (strBytes (serElemChars (cs "config") kids))) ∧
    (∀ e dg, countTag (cs "uam_dir")
        (updateFirstTag (cs "signature") (setHeadText dg) e) =
      countTag (cs "uam_dir") e) := by
  have hd1 : countTag (cs "uam_dir") d1 = 0 := by
    have := removeFirstTag_countTag_lt (cs "uam_dir") d d1 hrm
    omega
  have hd2 : countTag (cs "uam_dir") d2 = 0 := by
    rw [uarStep_countTag pw d1 d2 _ hu, hd1]
  have hkids : countTag (cs "uam_dir") kids = 0 := by
    have := findTagChildren_countTag_le (cs "config") (cs "uam_dir") d2 kids hcf
    omega
  refine ⟨hd1, hd2, ?_, ?_, ?_⟩
  · have hne : ¬ (cs "config" = cs "uam_dir") := by decide
    simp [countTag, hne, hkids]
  · simp [computeSignatureRaw, hpd, removeUamStep, hrm, hu, hcf, Except.bind,
      bind, Except.instMonad]
  · intro e dg
    exact updateFirstTag_setHeadText_countTag _ _ _ _

/-- Counterexample for C4 as stated: signing a document whose uam_dir is
indented by ten spaces yields a document that still parses to a tree
with one uam_dir element, so the output of sign is not uam_dir-free. -/
theorem C4_sign_keeps_uam_dir_counterexample :
    containsSub exTenSpaceDoc (cs "          <uam_dir>") = true ∧
      ((signRaw exTenSpaceDoc exPw).bind parseDoc).map
        (countTag (cs "uam_dir")) = .ok 1 :=
  ⟨by decide, by decide⟩

/-- Witness for C4 at the concrete ten-space-indented document. -/
theorem C4_uam_dir_removal_witness :
    countTag (cs "uam_dir")
        (.elem (cs "config")
          (.text (cs "\n")
            (.elem (cs "uar_data") (.text (cs " ") .nil) .nil)) .nil) = 0 ∧
      computeSignatureRaw exTenSpaceDoc exPw =
        .ok (hmacHexChars (strBytes exPw)
          (strBytes (serElemChars (cs "config")
            (.text (cs "\n")
              (.elem (cs "uar_data") (.text (cs " ") .nil) .nil))))) := by
  have h := C4_uam_dir_removal exTenSpaceDoc exPw
    (.elem (cs "eef")
      (.elem (cs "config")
        (.text (cs "\n")
          (.elem (cs "uam_dir") (.text (cs "/y") .nil)
            (.elem (cs "uar_data") (.text (cs " ") .nil) .nil)))
        (.elem (cs "signature") (.text (cs "s") .nil) .nil)) .nil)
    (.elem (cs "eef")
      (.elem (cs "config")
        (.text (cs "\n")
          (.elem (cs "uar_data") (.text (cs " ") .nil) .nil))
        (.elem (cs "signature") (.text (cs "s") .nil) .nil)) .nil)
    (.elem (cs "eef")
      (.elem (cs "config")
        (.text (cs "\n")
          (.elem (cs "uar_data") (.text (cs " ") .nil) .nil))
        (.elem (cs "signature") (.text (cs "s") .nil) .nil)) .nil)
    (.text (cs "\n") (.elem (cs "uar_data") (.text (cs " ") .nil) .nil))
    (by decide) (by decide) (by decide) (by decide) (by decide)
  exact ⟨h.2.2.1, h.2.2.2.1⟩

/-- Counterexample for C5 as stated: after sign the raw content starts
with the XML declaration immediately followed by the eef open tag on the
same line, and contains no newline before the eef tag; the newline
insertion is not part of sign. -/
theorem C5_sign_no_newline_counterexample :
    (signRaw exPlainDoc exPw).map (fun t => isPreOf declChars t) = .ok true ∧
      (signRaw exPlainDoc exPw).map
        (fun t => containsSub t (cs "\n<eef>")) = .ok false :=
  ⟨by decide, by decide⟩

/-- C5 amended: after sign the raw content equals the full serialized
tree (declaration and all document children, not just the config
subtree) with the digest as the signature element's text; the newline
before the first eef open tag is inserted by writeFile into the written
file content, not into the document's raw content. -/
theorem C5_sign_serialization_and_writeFile (s pw dg t : List Char)
    (d r e : XForest) (fs : List (List Char × List Char)) (name : List Char)
    (hc : computeSignatureRaw s pw = .ok dg)
    (hp : parseDoc s = .ok d)
    (hf : findTagChildren (cs "signature") d = some (.text t r))
    (hpe : parseDoc (serDocChars
      (updateFirstTag (cs "signature") (setHeadText dg) d)) = .ok e)
    (hlk : fsLookup fs name = none) :
    signRaw s pw = .ok (serDocChars
      (updateFirstTag (cs "signature") (setHeadText dg) d)) ∧
    writeFileM fs name (serDocChars
      (updateFirstTag (cs "signature") (setHeadText dg) d)) =
      (.ok (), (name, replaceFirstSub (serDocChars e)
        (cs "<eef>") (cs "\n<eef>")) :: fs) := by
  have hlk2 : (fsLookup fs name).isSome = false := by rw [hlk]; rfl
  constructor
  · simp [signRaw, hc, hp, hf, Except.bind, bind, Except.instMonad]
  · simp [writeFileM, hlk2, writeFileContent, hpe, Except.map]

/-- Witness for C5 at the concrete plain document and an empty store. -/
theorem C5_sign_serialization_and_writeFile_witness :
    signRaw exPlainDoc exPw = .ok (serDocChars
      (updateFirstTag (cs "signature")
        (setHeadText (hmacHexChars (strBytes exPw)
          (strBytes (serElemChars (cs "config")
            (.elem (cs "uar_data") (.text (cs " ") .nil) .nil)))))
        (.elem (cs "eef")
          (.elem (cs "uam_dir") .nil
            (.elem (cs "config")
              (.elem (cs "uar_data") (.text (cs " ") .nil) .nil)
              (.elem (cs "signature") (.text (cs "deadbeef") .nil) .nil)))
          .nil))) ∧
    writeFileM [] (cs "o2.xml") (serDocChars
      (updateFirstTag (cs "signature")
        (setHeadText (hmacHexChars (strBytes exPw)
          (strBytes (serElemChars (cs "config")
            (.elem (cs "uar_data") (.text (cs " ") .nil) .nil)))))
        (.elem (cs "eef")
          (.elem (cs "uam_dir") .nil
            (.elem (cs "config")
              (.elem (cs "uar_data") (.text (cs " ") .nil) .nil)
              (.elem (cs "signature") (.text (cs "deadbeef") .nil) .nil)))
          .nil))) =
      (.ok (), (cs "o2.xml", replaceFirstSub (serDocChars
        (.elem (cs "eef")
          (.elem (cs "uam_dir") .nil
            (.elem (cs "config")
              (.elem (cs "uar_data") (.text (cs " ") .nil) .nil)
              (.elem (cs "signature")
                (.text (hmacHexChars (strBytes exPw)
                  (strBytes (serElemChars (cs "config")
                    (.elem (cs "uar_data") (.text (cs " ") .nil) .nil))))
                  .nil) .nil)))
          .nil))
        (cs "<eef>") (cs "\n<eef>")) :: []) :=
  C5_sign_serialization_and_writeFile exPlainDoc exPw
    (hmacHexChars (strBytes exPw)
      (strBytes (serElemChars (cs "config")
        (.elem (cs "uar_data") (.text (cs " ") .nil) .nil))))
    (cs "deadbeef")
    (.elem (cs "eef")
      (.elem (cs "uam_dir") .nil
        (.elem (cs "config")
          (.elem (cs "uar_data") (.text (cs " ") .nil) .nil)
          (.elem (cs "signature") (.text (cs "deadbeef") .nil) .nil)))
      .nil)
    .nil
    (.elem (cs "eef")
      (.elem (cs "uam_dir") .nil
        (.elem (cs "config")
          (.elem (cs "uar_data") (.text (cs " ") .nil) .nil)
          (.elem (cs "signature")
            (.text (hmacHexChars (strBytes exPw)
              (strBytes (serElemChars (cs "config")
                (.elem (cs "uar_data") (.text (cs " ") .nil) .nil))))
              .nil) .nil)))
      .nil)
    [] (cs "o2.xml")
    (by decide) (by decide) (by decide) (by decide) (by decide)

/-- Tag counts add over forest concatenation. -/
theorem countTag_xapp (t : List Char) (a b : XForest) :
    countTag t (xapp a b) = countTag t a + countTag t b := by
  induction a with
  | nil => simp [xapp, countTag]
  | text u ns ih => simp [xapp, countTag, ih]
  | elem tg kids ns ih ihn => simp [xapp, countTag, ihn]; omega

/-- Lookup skips a leading fragment free of the tag. -/
theorem findTagChildren_xapp (t : List Char) (a b : XForest)
    (h : countTag t a = 0) :
    findTagChildren t (xapp a b) = findTagChildren t b := by
  induction a with
  | nil => simp [xapp]
  | text u ns ih =>
    simp only [countTag] at h
    simp [xapp, findTagChildren, ih h]
  | elem tg kids ns ihk ihn =>
    simp only [countTag] at h
    by_cases htg : tg = t
    · rw [if_pos htg] at h; omega
    · rw [if_neg htg] at h
      simp [xapp, findTagChildren, htg,
        countTag_zero_find_none t kids (by omega), ihn (by omega)]

/-- Removal skips a leading fragment free of the tag. -/
theorem removeFirstTag_xapp (t : List Char) (a b : XForest)
    (h : countTag t a = 0) :
    removeFirstTag t (xapp a b) = (removeFirstTag t b).map (xapp a ·) := by
  induction a with
  | nil => simp [xapp]
  | text u ns ih =>
    simp only [countTag] at h
    simp only [xapp, removeFirstTag, ih h]
    cases removeFirstTag t b <;> simp [xapp]
  | elem tg kids ns ihk ihn =>
    simp only [countTag] at h
    by_cases htg : tg = t
    · rw [if_pos htg] at h; omega
    · rw [if_neg htg] at h
      simp only [xapp, removeFirstTag, htg, if_neg htg,
        countTag_zero_remove_none t kids (by omega), ihn (by omega)]
      cases removeFirstTag t b <;> simp [xapp]

/-- Update skips a leading fragment free of the tag. -/
theorem updateFirstTag_xapp (t : List Char) (g : XForest → XForest)
    (a b : XForest) (h : countTag t a = 0) :
    updateFirstTag t g (xapp a b) = xapp a (updateFirstTag t g b) := by
  induction a with
  | nil => simp [xapp]
  | text u ns ih =>
    simp only [countTag] at h
    simp [xapp, updateFirstTag, ih h]
  | elem tg kids ns ihk ihn =>
    simp only [countTag] at h
    by_cases htg : tg = t
    · rw [if_pos htg] at h; omega
    · rw [if_neg htg] at h
      have hk : ¬ 0 < countTag t kids := by omega
      simp [xapp, updateFirstTag, htg, hk, ihn (by omega)]

/-- A list is a prefix of itself. -/
theorem isPreOf_refl (l : List Char) : isPreOf l l = true := by
  induction l with
  | nil => rfl
  | cons c t ih => simp [isPreOf, ih]

/-- A list occurs within itself. -/
theorem containsSub_self (l : List Char) : containsSub l l = true := by
  cases l with
  | nil => rfl
  | cons c t => simp [containsSub, isPreOf_refl]

/-- Removal step on an element with a different tag whose children hold
the first occurrence. -/
theorem removeFirstTag_elem_found (t tg : List Char) (kids ns r : XForest)
    (htg : ¬ tg = t) (hk : removeFirstTag t kids = some r) :
    removeFirstTag t (.elem tg kids ns) = some (.elem tg r ns) := by
  simp [removeFirstTag, htg, hk]

/-- Lookup step descending into an element with a different tag. -/
theorem findTagChildren_elem_descend (t tg : List Char) (kids ns r : XForest)
    (htg : ¬ tg = t) (hk : findTagChildren t kids = some r) :
    findTagChildren t (.elem tg kids ns) = some r := by
  simp [findTagChildren, htg, hk]

/-- Lookup step hitting the element itself. -/
theorem findTagChildren_elem_self (t : List Char) (kids ns : XForest) :
    findTagChildren t (.elem t kids ns) = some kids := by
  simp [findTagChildren]

/-- Update step descending into an element with a different tag. -/
theorem updateFirstTag_elem_descend (t tg : List Char) (g : XForest → XForest)
    (kids ns : XForest) (htg : ¬ tg = t) (hk : 0 < countTag t kids) :
    updateFirstTag t g (.elem tg kids ns) =
      .elem tg (updateFirstTag t g kids) ns := by
  simp [updateFirstTag, htg, hk]

/-- Update step hitting the element itself. -/
theorem updateFirstTag_elem_self (t : List Char) (g : XForest → XForest)
    (kids ns : XForest) :
    updateFirstTag t g (.elem t kids ns) = .elem t (g kids) ns := by
  simp [updateFirstTag]

/-- Canonicalization pipeline on a schema document: computeSignature
succeeds and returns the digest of the canonical config element. -/
theorem computeSignatureRaw_schema (s pw rootTag : List Char)
    (pre c1 uamKids c2 : XForest) (uarText : List Char) (uarRest c3 tl : XForest)
    (h2 : parseDoc (subUam s) =
      .ok (schemaDoc rootTag pre c1 uamKids c2 uarText uarRest c3 tl))
    (hroot : rootTag ≠ cs "uam_dir" ∧ rootTag ≠ cs "uar_data" ∧
      rootTag ≠ cs "config")
    (hpre : countTag (cs "uam_dir") pre = 0 ∧ countTag (cs "uar_data") pre = 0 ∧
      countTag (cs "config") pre = 0)
    (hc1 : countTag (cs "uam_dir") c1 = 0 ∧ countTag (cs "uar_data") c1 = 0)
    (hc2 : countTag (cs "uar_data") c2 = 0) :
    computeSignatureRaw s pw = .ok (roundDigest pw c1 c2 uarText uarRest c3) := by
  have hcu : ¬ (cs "config" = cs "uam_dir") := by decide
  have hcr : ¬ (cs "config" = cs "uar_data") := by decide
  -- removal of the uam_dir element
  have e2 : removeFirstTag (cs "uam_dir")
      (xapp c1 (.elem (cs "uam_dir") uamKids
        (xapp c2 (.elem (cs "uar_data") (.text uarText uarRest) c3)))) =
      some (xapp c1 (xapp c2 (.elem (cs "uar_data")
        (.text uarText uarRest) c3))) := by
    rw [removeFirstTag_xapp _ _ _ hc1.1]
    rw [show removeFirstTag (cs "uam_dir")
      (XForest.elem (cs "uam_dir") uamKids
        (xapp c2 (.elem (cs "uar_data") (.text uarText uarRest) c3))) =
      some (xapp c2 (.elem (cs "uar_data") (.text uarText uarRest) c3)) by
        simp [removeFirstTag]]
    rfl
  have e4 : removeFirstTag (cs "uam_dir")
      (schemaDoc rootTag pre c1 uamKids c2 uarText uarRest c3 tl) =
      some (.elem rootTag (xapp pre (.elem (cs "config")
        (xapp c1 (xapp c2 (.elem (cs "uar_data") (.text uarText uarRest) c3)))
        tl)) .nil) := by
    rw [schemaDoc]
    refine removeFirstTag_elem_found _ _ _ _ _ hroot.1 ?_
    rw [removeFirstTag_xapp _ _ _ hpre.1,
      removeFirstTag_elem_found _ _ _ _ _ hcu e2]
    rfl
  -- lookup of the uar_data element in the removed tree
  have f1 : findTagChildren (cs "uar_data")
      (.elem rootTag (xapp pre (.elem (cs "config")
        (xapp c1 (xapp c2 (.elem (cs "uar_data") (.text uarText uarRest) c3)))
        tl)) .nil) =
      some (.text uarText uarRest) := by
    refine findTagChildren_elem_descend _ _ _ _ _ hroot.2.1 ?_
    rw [findTagChildren_xapp _ _ _ hpre.2.1]
    refine findTagChildren_elem_descend _ _ _ _ _ hcr ?_
    rw [findTagChildren_xapp _ _ _ hc1.2, findTagChildren_xapp _ _ _ hc2]
    exact findTagChildren_elem_self _ _ _
  -- lookup of the config element in the canonical tree
  have g1 : ∀ w : List Char, findTagChildren (cs "config")
      (.elem rootTag (xapp pre (.elem (cs "config")
        (xapp c1 (xapp c2 (.elem (cs "uar_data") (.text w uarRest) c3)))
        tl)) .nil) =
      some (xapp c1 (xapp c2 (.elem (cs "uar_data") (.text w uarRest) c3))) := by
    intro w
    refine findTagChildren_elem_descend _ _ _ _ _ hroot.2.2 ?_
    rw [findTagChildren_xapp _ _ _ hpre.2.2]
    exact findTagChildren_elem_self _ _ _
  by_cases hb : pyStrip uarText ++ ['\n'] = ['\n']
  · -- blank branch: the tree is unchanged
    have hu : uarStep pw
        (.elem rootTag (xapp pre (.elem (cs "config")
          (xapp c1 (xapp c2 (.elem (cs "uar_data") (.text uarText uarRest) c3)))
          tl)) .nil) =
        .ok (.elem rootTag (xapp pre (.elem (cs "config")
          (xapp c1 (xapp c2 (.elem (cs "uar_data") (.text uarText uarRest) c3)))
          tl)) .nil) := by
      simp [uarStep, f1, hb]
    simp only [computeSignatureRaw, h2, removeUamStep, e4, hu, g1,
      Except.bind, bind, Except.instMonad, roundDigest, cfgCanonKids,
      uarFinalText, if_pos hb]
  · -- non-blank branch: the uar_data text is rewritten
    have hcnt : 0 < countTag (cs "uar_data")
        (xapp c1 (xapp c2 (.elem (cs "uar_data") (.text uarText uarRest) c3))) := by
      rw [countTag_xapp, countTag_xapp]
      simp [countTag]
    have hcnt2 : 0 < countTag (cs "uar_data")
        (xapp pre (.elem (cs "config")
          (xapp c1 (xapp c2 (.elem (cs "uar_data") (.text uarText uarRest) c3)))
          tl)) := by
      rw [countTag_xapp]
      simp only [countTag, if_neg hcr]
      omega
    have hup : updateFirstTag (cs "uar_data")
        (setHeadText (uarReplacementText pw uarText))
        (.elem rootTag (xapp pre (.elem (cs "config")
          (xapp c1 (xapp c2 (.elem (cs "uar_data") (.text uarText uarRest) c3)))
          tl)) .nil) =
        .elem rootTag (xapp pre (.elem (cs "config")
          (xapp c1 (xapp c2 (.elem (cs "uar_data")
            (.text (uarReplacementText pw uarText) uarRest) c3)))
          tl)) .nil := by
      rw [updateFirstTag_elem_descend _ _ _ _ _ hroot.2.1 hcnt2,
        updateFirstTag_xapp _ _ _ _ hpre.2.1,
        updateFirstTag_elem_descend _ _ _ _ _ hcr hcnt,
        updateFirstTag_xapp _ _ _ _ hc1.2, updateFirstTag_xapp _ _ _ _ hc2,
        updateFirstTag_elem_self]
      rfl
    have hu : uarStep pw
        (.elem rootTag (xapp pre (.elem (cs "config")
          (xapp c1 (xapp c2 (.elem (cs "uar_data") (.text uarText uarRest) c3)))
          tl)) .nil) =
        .ok (.elem rootTag (xapp pre (.elem (cs "config")
          (xapp c1 (xapp c2 (.elem (cs "uar_data")
            (.text (uarReplacementText pw uarText) uarRest) c3)))
          tl)) .nil) := by
      simp only [uarStep, f1, if_neg hb, hup]
    simp only [computeSignatureRaw, h2, removeUamStep, e4, hu, g1,
      Except.bind, bind, Except.instMonad, roundDigest, cfgCanonKids,
      uarFinalText, if_neg hb]

/-- Counterexample for C1 as stated: a well-formed document holding all
four required elements, with the signature element inside the config
subtree (the shape of the specification's own end-to-end example), on
which sign followed by verifySignature returns false, because sign
changes the config subtree that verifySignature re-hashes. -/
theorem C1_sig_inside_config_counterexample :
    (parseDoc exSigInsideDoc).map (countTag (cs "uam_dir")) = .ok 1 ∧
    (parseDoc exSigInsideDoc).map (countTag (cs "uar_data")) = .ok 1 ∧
    (parseDoc exSigInsideDoc).map (countTag (cs "config")) = .ok 1 ∧
    (parseDoc exSigInsideDoc).map (countTag (cs "signature")) = .ok 1 ∧
    (signRaw exSigInsideDoc exPw).bind (fun t => verifyRaw t exPw) = .ok false :=
  ⟨by decide, by decide, by decide, by decide, by decide⟩

/-- Unpacking of the valid-tag test. -/
theorem validTag_spec (tg : List Char) (h : validTag tg = true) :
    tg ≠ [] ∧ ∀ c ∈ tg, isNameChar c = true := by
  simp only [validTag, Bool.and_eq_true, List.all_eq_true, List.isEmpty_iff,
    Bool.not_eq_eq_eq_not, Bool.not_true] at h
  exact ⟨by simpa using h.1, fun c hc => h.2 c hc⟩

/-- Escaped character data of a nonempty text starts with a character
other than an opening angle bracket. -/
theorem escChars_cons_head (c : Char) (t2 : List Char) :
    ∃ c0 r0, escChars (c :: t2) = c0 :: r0 ∧ ¬ c0 = '<' := by
  by_cases h1 : c = '&'
  · subst h1
    exact ⟨'&', cs "amp;" ++ escChars t2, rfl, by decide⟩
  · by_cases h2 : c = '<'
    · subst h2
      exact ⟨'&', cs "lt;" ++ escChars t2, rfl, by decide⟩
    · by_cases h3 : c = '"'
      · subst h3
        exact ⟨'&', cs "quot;" ++ escChars t2, rfl, by decide⟩
      · by_cases h4 : c = '>'
        · subst h4
          exact ⟨'&', cs "gt;" ++ escChars t2, rfl, by decide⟩
        · exact ⟨c, escChars t2,
            by simp [escChars, escChar, h1, h2, h3, h4], h2⟩

/-- Escaped character data of a nonempty text is nonempty. -/
theorem escChars_length_pos (t : List Char) (h : t ≠ []) :
    1 ≤ (escChars t).length := by
  cases t with
  | nil => cases h rfl
  | cons c t2 =>
    obtain ⟨c0, r0, he, _⟩ := escChars_cons_head c t2
    simp [he]

/-- Character-data reader at an opening angle bracket: stop. -/
theorem parseTextAux_lt (r : List Char) :
    parseTextAux ('<' :: r) = .ok ([], '<' :: r) := by
  unfold parseTextAux
  simp

/-- Character-data reader at an ampersand entity reference. -/
theorem parseTextAux_amp (r : List Char) :
    parseTextAux ('&' :: 'a' :: 'm' :: 'p' :: ';' :: r) =
      (parseTextAux r).map (fun p => ('&' :: p.1, p.2)) := by
  conv_lhs => unfold parseTextAux
  simp

/-- Character-data reader at a less-than entity reference. -/
theorem parseTextAux_ltEnt (r : List Char) :
    parseTextAux ('&' :: 'l' :: 't' :: ';' :: r) =
      (parseTextAux r).map (fun p => ('<' :: p.1, p.2)) := by
  conv_lhs => unfold parseTextAux
  simp

/-- Character-data reader at a greater-than entity reference. -/
theorem parseTextAux_gtEnt (r : List Char) :
    parseTextAux ('&' :: 'g' :: 't' :: ';' :: r) =
      (parseTextAux r).map (fun p => ('>' :: p.1, p.2)) := by
  conv_lhs => unfold parseTextAux
  simp

/-- Character-data reader at a quote entity reference. -/
theorem parseTextAux_quotEnt (r : List Char) :
    parseTextAux ('&' :: 'q' :: 'u' :: 'o' :: 't' :: ';' :: r) =
      (parseTextAux r).map (fun p => ('"' :: p.1, p.2)) := by
  conv_lhs => unfold parseTextAux
  simp

/-- Character-data reader at an ordinary character. -/
theorem parseTextAux_other (c : Char) (r : List Char)
    (h1 : ¬ c = '<') (h2 : ¬ c = '&') :
    parseTextAux (c :: r) = (parseTextAux r).map (fun p => (c :: p.1, p.2)) := by
  conv_lhs => unfold parseTextAux
  simp [h1, h2]

/-- The character-data reader recovers exactly the escaped text when the
remainder is empty or starts a tag. -/
theorem parseText_esc (t suffix : List Char)
    (hs : suffix = [] ∨ ∃ r, suffix = '<' :: r) :
    parseTextAux (escChars t ++ suffix) = .ok (t, suffix) := by
  induction t with
  | nil =>
    rcases hs with rfl | ⟨r, rfl⟩
    · rfl
    · simp only [escChars, List.map_nil, List.flatten_nil, List.nil_append]
      exact parseTextAux_lt r
  | cons c t2 ih =>
    by_cases h1 : c = '&'
    · subst h1
      have he := parseTextAux_amp (escChars t2 ++ suffix)
      rw [ih] at he
      simpa [Except.map] using he
    · by_cases h2 : c = '<'
      · subst h2
        have he := parseTextAux_ltEnt (escChars t2 ++ suffix)
        rw [ih] at he
        simpa [Except.map] using he
      · by_cases h3 : c = '"'
        · subst h3
          have he := parseTextAux_quotEnt (escChars t2 ++ suffix)
          rw [ih] at he
          simpa [Except.map] using he
        · by_cases h4 : c = '>'
          · subst h4
            have he := parseTextAux_gtEnt (escChars t2 ++ suffix)
            rw [ih] at he
            simpa [Except.map] using he
          · have he := parseTextAux_other c (escChars t2 ++ suffix) h2 h1
            rw [ih] at he
            have hform : escChars (c :: t2) ++ suffix =
                c :: (escChars t2 ++ suffix) := by
              simp [escChars, escChar, h1, h2, h3, h4]
            rw [hform, he]
            simp [Except.map]

/-- Take of name characters stops exactly at the first non-name
character. -/
theorem takeWhile_name_append (tg : List Char) (d : Char) (r : List Char)
    (h : ∀ c ∈ tg, isNameChar c = true) (hd : isNameChar d = false) :
    (tg ++ d :: r).takeWhile isNameChar = tg := by
  induction tg with
  | nil => simp [List.takeWhile_cons, hd]
  | cons a as ih =>
    simp only [List.cons_append, List.takeWhile_cons, h a (by simp), if_true]
    rw [ih (fun c hc => h c (by simp [hc]))]

/-- Drop of name characters stops exactly at the first non-name
character. -/
theorem dropWhile_name_append (tg : List Char) (d : Char) (r : List Char)
    (h : ∀ c ∈ tg, isNameChar c = true) (hd : isNameChar d = false) :
    (tg ++ d :: r).dropWhile isNameChar = d :: r := by
  induction tg with
  | nil => simp [List.dropWhile_cons, hd]
  | cons a as ih =>
    simp only [List.cons_append, List.dropWhile_cons, h a (by simp)]
    simp only [if_true]
    exact ih (fun c hc => h c (by simp [hc]))

/-- Serialization of a nonempty-children element in open-close form. -/
theorem serForest_elem_ne (tg : List Char) (kids ns : XForest)
    (hk : kids ≠ .nil) :
    serForest (.elem tg kids ns) =
      '<' :: (tg ++ ['>']) ++ serForest kids
        ++ ('<' :: '/' :: (tg ++ ['>'])) ++ serForest ns := by
  cases kids with
  | nil => cases hk rfl
  | text u k => simp [serForest]
  | elem tg2 k2 k => simp [serForest]

/-- Serialization of an element starts with an opening angle bracket. -/
theorem serForest_elem_head (tg : List Char) (kids ns : XForest) :
    ∃ r, serForest (.elem tg kids ns) = '<' :: r := by
  cases kids with
  | nil => exact ⟨_, rfl⟩
  | text u k => exact ⟨_, rfl⟩
  | elem tg2 k2 k => exact ⟨_, rfl⟩

/-- Closing-tag stop of the content parser. -/
theorem parseNodes_close (n : Nat) (r : List Char) :
    parseNodes (n + 1) ('<' :: '/' :: r) = .ok (.nil, '<' :: '/' :: r) := by
  conv_lhs => unfold parseNodes
  simp

/-- Text dispatch of the content parser. -/
theorem parseNodes_text (n : Nat) (c : Char) (r : List Char) (h : ¬ c = '<') :
    parseNodes (n + 1) (c :: r) =
      match parseTextAux (c :: r) with
      | .error e => .error e
      | .ok (t, r2) => (parseNodes n r2).map (fun p => (.text t p.1, p.2)) := by
  conv_lhs => unfold parseNodes
  simp [h]

/-- The content parser recovers a serialized well-formed forest exactly,
leaving a remainder that is empty or starts a closing tag. -/
theorem parseNodes_ser : ∀ (fuel : Nat) (f : XForest) (rest : List Char),
    wfForest f = true →
    (rest = [] ∨ ∃ r, rest = '<' :: '/' :: r) →
    (serForest f).length < fuel →
    parseNodes fuel (serForest f ++ rest) = .ok (f, rest) := by
  intro fuel
  induction fuel with
  | zero =>
    intro f rest _ _ hlen
    omega
  | succ n ih =>
    intro f rest hwf hrest hlen
    cases f with
    | nil =>
      rcases hrest with rfl | ⟨r, rfl⟩
      · rfl
      · simpa [serForest] using parseNodes_close n r
    | text t ns =>
      simp only [wfForest, Bool.and_eq_true] at hwf
      obtain ⟨⟨htne, hadj⟩, hwn⟩ := hwf
      cases t with
      | nil => simp at htne
      | cons c t2 =>
        obtain ⟨c0, r0, hesc, hc0⟩ := escChars_cons_head c t2
        have hsuffix : serForest ns ++ rest = [] ∨
            ∃ r, serForest ns ++ rest = '<' :: r := by
          cases ns with
          | nil =>
            rcases hrest with rfl | ⟨r, rfl⟩
            · left; rfl
            · right; exact ⟨'/' :: r, rfl⟩
          | text u k => simp at hadj
          | elem tg2 k2 k =>
            obtain ⟨r2, hr2⟩ := serForest_elem_head tg2 k2 k
            right
            exact ⟨r2 ++ rest, by simp [hr2]⟩
        have hpt := parseText_esc (c :: t2) (serForest ns ++ rest) hsuffix
        have hinput : serForest (.text (c :: t2) ns) ++ rest =
            c0 :: (r0 ++ (serForest ns ++ rest)) := by
          simp [serForest, hesc]
        rw [hinput, parseNodes_text n c0 _ hc0]
        rw [show (c0 :: (r0 ++ (serForest ns ++ rest))) =
          escChars (c :: t2) ++ (serForest ns ++ rest) from by simp [hesc]]
        rw [hpt]
        have hlen2 : (serForest ns).length < n := by
          have h1 := escChars_length_pos (c :: t2) (by simp)
          simp only [serForest, List.length_append] at hlen
          omega
        exact (show (parseNodes n (serForest ns ++ rest)).map
            (fun p => (XForest.text (c :: t2) p.1, p.2)) =
            Except.ok (XForest.text (c :: t2) ns, rest) by
          rw [ih ns rest hwn hrest hlen2]
          rfl)
    | elem tg kids ns =>
      simp only [wfForest, Bool.and_eq_true] at hwf
      obtain ⟨⟨hvt, hwk⟩, hwn⟩ := hwf
      obtain ⟨htgne, htgname⟩ := validTag_spec tg hvt
      cases tg with
      | nil => cases htgne rfl
      | cons c0 tg2 =>
      have hc0name : isNameChar c0 = true := htgname c0 (by simp)
      have hc0slash : ¬ c0 = '/' := by
        intro he
        rw [he] at hc0name
        simp [isNameChar] at hc0name
      have hheadne : ∀ z : List Char,
          ¬ (((c0 :: tg2) ++ z).head? = some '/') := by
        intro z he
        simp only [List.cons_append, List.head?_cons, Option.some_inj] at he
        exact hc0slash he
      have hslashname : isNameChar '/' = false := by decide
      have hgtname : isNameChar '>' = false := by decide
      by_cases hk : kids = XForest.nil
      · subst hk
        have hinput : serForest (.elem (c0 :: tg2) .nil ns) ++ rest =
            '<' :: ((c0 :: tg2) ++ '/' :: '>' :: (serForest ns ++ rest)) := by
          simp [serForest]
        have hlen2 : (serForest ns).length < n := by
          simp only [serForest, List.length_append, List.length_cons] at hlen
          omega
        rw [hinput]
        conv_lhs => unfold parseNodes
        rw [if_pos rfl, if_neg (hheadne _)]
        simp only [takeWhile_name_append _ _ _ htgname hslashname,
          dropWhile_name_append _ _ _ htgname hslashname, List.isEmpty_cons,
          Bool.false_eq_true, if_false]
        rw [ih ns rest hwn hrest hlen2]
        rfl
      · have hinput : serForest (.elem (c0 :: tg2) kids ns) ++ rest =
            '<' :: ((c0 :: tg2) ++ '>' :: (serForest kids ++
              ('<' :: '/' :: ((c0 :: tg2) ++ '>' :: (serForest ns ++ rest))))) := by
          rw [serForest_elem_ne _ _ _ hk]
          simp
        have hlens : (serForest kids).length < n ∧
            (serForest ns).length < n := by
          rw [serForest_elem_ne _ _ _ hk] at hlen
          simp only [List.length_append, List.length_cons] at hlen
          omega
        rw [hinput]
        conv_lhs => unfold parseNodes
        rw [if_pos rfl, if_neg (hheadne _)]
        simp only [takeWhile_name_append _ _ _ htgname hgtname,
          dropWhile_name_append _ _ _ htgname hgtname, List.isEmpty_cons,
          Bool.false_eq_true, if_false]
        rw [ih kids ('<' :: '/' :: ((c0 :: tg2) ++ '>' :: (serForest ns ++ rest)))
          hwk (Or.inr ⟨_, rfl⟩) hlens.1]
        simp only [takeWhile_name_append _ _ _ htgname hgtname,
          dropWhile_name_append _ _ _ htgname hgtname, if_pos rfl]
        rw [ih ns rest hwn hrest hlens.2]
        rfl

/-- Scan past the serialized XML declaration. -/
theorem skipToDeclEnd_decl (x : List Char) :
    skipToDeclEnd (cs "xml version=\"1.0\" ?>" ++ x) = some x := rfl

/-- The document parser recovers the serialization of a well-formed
single-root document: declaration, then the root element. -/
theorem parseDoc_serDoc (tg : List Char) (kids : XForest)
    (hwf : wfForest (.elem tg kids .nil) = true) :
    parseDoc (serDocChars (.elem tg kids .nil)) = .ok (.elem tg kids .nil) := by
  obtain ⟨r1, hr1⟩ := serForest_elem_head tg kids .nil
  have hser : parseNodes ((serForest (XForest.elem tg kids .nil)).length + 1)
      (serForest (.elem tg kids .nil) ++ []) =
      .ok (.elem tg kids .nil, []) :=
    parseNodes_ser _ _ [] hwf (Or.inl rfl) (by omega)
  rw [List.append_nil] at hser
  unfold parseDoc
  rw [show (serDocChars (XForest.elem tg kids .nil)).dropWhile isXmlWs =
    '<' :: '?' :: (cs "xml version=\"1.0\" ?>" ++
      serForest (.elem tg kids .nil)) from rfl]
  simp only [skipToDeclEnd_decl, Except.bind, bind, Except.instMonad]
  rw [show (serForest (XForest.elem tg kids .nil)).dropWhile isXmlWs =
    serForest (XForest.elem tg kids .nil) from by rw [hr1]; rfl]
  rw [hser]
  rfl

/-- Update step skipping an element whose subtree lacks the tag. -/
theorem updateFirstTag_elem_skip (t tg : List Char) (g : XForest → XForest)
    (kids ns : XForest) (htg : ¬ tg = t) (hk : countTag t kids = 0) :
    updateFirstTag t g (.elem tg kids ns) =
      .elem tg kids (updateFirstTag t g ns) := by
  simp [updateFirstTag, htg, hk]

/-- The first-match lookup succeeds exactly when the tag occurs. -/
theorem findTagChildren_isSome_iff (t : List Char) (f : XForest) :
    (findTagChildren t f).isSome = true ↔ 0 < countTag t f := by
  induction f with
  | nil => simp [findTagChildren, countTag]
  | text v ns ih => simpa [findTagChildren, countTag] using ih
  | elem tg kids ns ihk ihn =>
    by_cases h : tg = t
    · simp [findTagChildren, countTag, h]
    · cases hk : findTagChildren t kids with
      | some r =>
        have hpos : 0 < countTag t kids := by
          rw [← ihk, hk]; rfl
        simp only [findTagChildren, if_neg h, hk, countTag]
        simp [h]
        omega
      | none =>
        have hk0 : countTag t kids = 0 := by
          by_contra hc
          have : (findTagChildren t kids).isSome = true :=
            ihk.mpr (Nat.pos_of_ne_zero hc)
          rw [hk] at this
          exact Bool.false_ne_true this
        simp only [findTagChildren, if_neg h, hk, countTag, hk0]
        simpa [h] using ihn

/-- Updating the children of the first element with a tag moves the
update function through the first-match lookup. -/
theorem findTagChildren_updateFirstTag (t : List Char) (g : XForest → XForest)
    (f kids : XForest) (h : findTagChildren t f = some kids) :
    findTagChildren t (updateFirstTag t g f) = some (g kids) := by
  induction f with
  | nil => simp [findTagChildren] at h
  | text v ns ih =>
    simp only [findTagChildren] at h
    simp only [updateFirstTag, findTagChildren]
    exact ih h
  | elem tg kids' ns ihk ihn =>
    by_cases htg : tg = t
    · simp only [findTagChildren, if_pos htg] at h
      injection h with h
      subst h
      simp [updateFirstTag, findTagChildren, htg]
    · simp only [findTagChildren, if_neg htg] at h
      cases hk : findTagChildren t kids' with
      | some r =>
        rw [hk] at h
        injection h with h
        subst h
        have hcnt : 0 < countTag t kids' := by
          rw [← findTagChildren_isSome_iff, hk]; rfl
        rw [updateFirstTag_elem_descend t tg g kids' ns htg hcnt]
        simp only [findTagChildren, if_neg htg, ihk hk]
      | none =>
        rw [hk] at h
        have hcnt : countTag t kids' = 0 := by
          by_contra hc
          have hs : (findTagChildren t kids').isSome = true :=
            (findTagChildren_isSome_iff t kids').mpr (Nat.pos_of_ne_zero hc)
          rw [hk] at hs
          exact Bool.false_ne_true hs
        rw [updateFirstTag_elem_skip t tg g kids' ns htg hcnt]
        simp only [findTagChildren, if_neg htg, hk, ihn h]

/-- Updating below a single root keeps the single-root shape. -/
theorem updateFirstTag_single_root (t : List Char) (g : XForest → XForest)
    (tg0 : List Char) (kids0 : XForest) :
    ∃ kids1, updateFirstTag t g (.elem tg0 kids0 .nil) =
      .elem tg0 kids1 .nil ∧
      (tg0 = t → kids1 = g kids0) ∧
      (¬ tg0 = t → 0 < countTag t kids0 → kids1 = updateFirstTag t g kids0) ∧
      (¬ tg0 = t → countTag t kids0 = 0 → kids1 = kids0) := by
  by_cases htg : tg0 = t
  · exact ⟨g kids0, by simp [updateFirstTag, htg], fun _ => rfl,
      fun hn _ => absurd htg hn, fun hn _ => absurd htg hn⟩
  · by_cases hcnt : 0 < countTag t kids0
    · exact ⟨updateFirstTag t g kids0,
        updateFirstTag_elem_descend t tg0 g kids0 .nil htg hcnt,
        fun he => absurd he htg, fun _ _ => rfl,
        fun _ h0 => absurd hcnt (by omega)⟩
    · have h0 : countTag t kids0 = 0 := by omega
      exact ⟨kids0, by
        rw [updateFirstTag_elem_skip t tg0 g kids0 .nil htg h0]; rfl,
        fun he => absurd he htg, fun _ hp => absurd hp hcnt, fun _ _ => rfl⟩

/-- C1 amended: sign followed by verifySignature returns true for
well-formed documents of the appliance shape whose signature element
lies outside (after) the config subtree.  The document parses to a
single-root tree holding a signature element with a text first child;
the normalized text parses to the schema tree (fragments free of
misplaced special elements); the one remaining hypothesis on the signed
serialization states that the whitespace normalization recovers the same
schema tree with a new trailing forest, and the well-formedness of the
updated tree lets the proved parse-of-serialize round trip reconstruct
the reparse of the signed document.  Under these conditions sign embeds
the canonical digest and verifySignature recomputes the identical
digest, finds it in the stored text, and returns true. -/
theorem C1_sign_verify_round_trip (s pw rootTag : List Char)
    (pre c1 uamKids c2 : XForest) (uarText : List Char)
    (uarRest c3 tailA tailB : XForest) (tg0 : List Char) (kids0 : XForest)
    (sigOldO : List Char) (sr : XForest)
    (h1 : parseDoc s = .ok (.elem tg0 kids0 .nil))
    (h2 : parseDoc (subUam s) =
      .ok (schemaDoc rootTag pre c1 uamKids c2 uarText uarRest c3 tailA))
    (h3 : findTagChildren (cs "signature") (.elem tg0 kids0 .nil) =
      some (.text sigOldO sr))
    (hroot : rootTag ≠ cs "uam_dir" ∧ rootTag ≠ cs "uar_data" ∧
      rootTag ≠ cs "config")
    (hpre : countTag (cs "uam_dir") pre = 0 ∧ countTag (cs "uar_data") pre = 0 ∧
      countTag (cs "config") pre = 0)
    (hc1 : countTag (cs "uam_dir") c1 = 0 ∧ countTag (cs "uar_data") c1 = 0)
    (hc2 : countTag (cs "uar_data") c2 = 0)
    (h6 : parseDoc (subUam (serDocChars (updateFirstTag (cs "signature")
        (setHeadText (roundDigest pw c1 c2 uarText uarRest c3))
        (.elem tg0 kids0 .nil)))) =
      .ok (schemaDoc rootTag pre c1 uamKids c2 uarText uarRest c3 tailB))
    (hwf : wfForest (updateFirstTag (cs "signature")
        (setHeadText (roundDigest pw c1 c2 uarText uarRest c3))
        (.elem tg0 kids0 .nil)) = true) :
    signRaw s pw = .ok (serDocChars (updateFirstTag (cs "signature")
      (setHeadText (roundDigest pw c1 c2 uarText uarRest c3))
      (.elem tg0 kids0 .nil))) ∧
    verifyRaw (serDocChars (updateFirstTag (cs "signature")
      (setHeadText (roundDigest pw c1 c2 uarText uarRest c3))
      (.elem tg0 kids0 .nil))) pw =
      .ok true ∧
    (signRaw s pw).bind (fun t => verifyRaw t pw) = .ok true := by
  have hcomp := computeSignatureRaw_schema s pw rootTag pre c1 uamKids c2
    uarText uarRest c3 tailA h2 hroot hpre hc1 hc2
  have hsign : signRaw s pw = .ok (serDocChars (updateFirstTag (cs "signature")
      (setHeadText (roundDigest pw c1 c2 uarText uarRest c3))
      (.elem tg0 kids0 .nil))) := by
    simp only [signRaw, hcomp, h1, h3, Except.bind, bind, Except.instMonad]
  obtain ⟨kids1, hupd, -, -, -⟩ := updateFirstTag_single_root (cs "signature")
    (setHeadText (roundDigest pw c1 c2 uarText uarRest c3)) tg0 kids0
  have h7 : parseDoc (serDocChars (updateFirstTag (cs "signature")
      (setHeadText (roundDigest pw c1 c2 uarText uarRest c3))
      (.elem tg0 kids0 .nil))) =
      .ok (updateFirstTag (cs "signature")
        (setHeadText (roundDigest pw c1 c2 uarText uarRest c3))
        (.elem tg0 kids0 .nil)) := by
    rw [hupd] at hwf ⊢
    exact parseDoc_serDoc tg0 kids1 hwf
  have h8 : findTagChildren (cs "signature")
      (updateFirstTag (cs "signature")
        (setHeadText (roundDigest pw c1 c2 uarText uarRest c3))
        (.elem tg0 kids0 .nil)) =
      some (.text (roundDigest pw c1 c2 uarText uarRest c3) sr) := by
    have hu := findTagChildren_updateFirstTag (cs "signature")
      (setHeadText (roundDigest pw c1 c2 uarText uarRest c3))
      (.elem tg0 kids0 .nil) (.text sigOldO sr) h3
    simpa [setHeadText] using hu
  have hcomp2 := computeSignatureRaw_schema
    (serDocChars (updateFirstTag (cs "signature")
      (setHeadText (roundDigest pw c1 c2 uarText uarRest c3))
      (.elem tg0 kids0 .nil)))
    pw rootTag pre c1 uamKids c2 uarText uarRest c3 tailB h6 hroot hpre hc1 hc2
  have hver : verifyRaw (serDocChars (updateFirstTag (cs "signature")
      (setHeadText (roundDigest pw c1 c2 uarText uarRest c3))
      (.elem tg0 kids0 .nil))) pw =
      .ok true := by
    simp only [verifyRaw, hcomp2, h7, h8, Except.bind, bind, Except.instMonad,
      containsSub_self]
  exact ⟨hsign, hver, by simp [hsign, hver, Except.bind, bind, Except.instMonad]⟩

/-- Witness for C1 at the concrete canonical-layout document (ten-space
indented uam_dir, blank uar_data, signature after config). -/
theorem C1_sign_verify_round_trip_witness :
    (signRaw exCanonicalDoc exPw).bind (fun t => verifyRaw t exPw) = .ok true :=
  (C1_sign_verify_round_trip exCanonicalDoc exPw (cs "eef")
    (.text (cs "\n") .nil)
    (.text (cs "k\n") .nil)
    (.text (cs "/x") .nil)
    (.text (cs "          ") .nil)
    (cs "\n")
    .nil
    (.text (cs "\n") .nil)
    (.text (cs "\n") (.elem (cs "signature") (.text (cs "old") .nil)
      (.text (cs "\n") .nil)))
    (.text (cs "\n") (.elem (cs "signature")
      (.text (roundDigest exPw (.text (cs "k\n") .nil)
        (.text (cs "          ") .nil) (cs "\n") .nil
        (.text (cs "\n") .nil)) .nil)
      (.text (cs "\n") .nil)))
    (cs "eef")
    (.text (cs "\n")
      (.elem (cs "config")
        (.text (cs "k\n          ")
          (.elem (cs "uam_dir") (.text (cs "/x") .nil)
            (.text (cs "\n          ")
              (.elem (cs "uar_data") (.text (cs "\n") .nil)
                (.text (cs "\n") .nil)))))
        (.text (cs "\n")
          (.elem (cs "signature") (.text (cs "old") .nil)
            (.text (cs "\n") .nil)))))
    (cs "old")
    .nil
    (by decide) (by decide) (by decide) (by decide) (by decide) (by decide)
    (by decide) (by decide) (by decide)).2.2
